import Mathlib

/-!
# CTC to in-hand calculator: request lifecycle and response interpretation

A shallow embedding of `src/src/App.jsx`: the form validation and request
lifecycle of `handleSubmit`, the render guards of the results section and
the total-deductions expression.

JavaScript strings are modelled by `String` (sequences of code points; the
white space code points all lie in the basic plane, so trimming code points
and trimming UTF-16 code units agree).
-/

namespace CtcClient

/-! ## Strings -/

/-- White space as stripped by `String.prototype.trim`: the ECMAScript
`WhiteSpace` and `LineTerminator` code points. -/
def isJsWhitespace (c : Char) : Bool :=
  let n := c.toNat
  n == 0x0009 || n == 0x000A || n == 0x000B || n == 0x000C || n == 0x000D ||
  n == 0x0020 || n == 0x00A0 || n == 0x1680 ||
  (0x2000 ≤ n && n ≤ 0x200A) ||
  n == 0x2028 || n == 0x2029 || n == 0x202F || n == 0x205F ||
  n == 0x3000 || n == 0xFEFF

/-- Strip leading and trailing white space from a list of characters. -/
def trimChars (cs : List Char) : List Char :=
  ((cs.dropWhile isJsWhitespace).reverse.dropWhile isJsWhitespace).reverse

/-- The method `s.trim()`. -/
def jsTrim (s : String) : String := ⟨trimChars s.data⟩

/-- Truthiness of a string value: only the empty string is falsy. -/
def strTruthy (s : String) : Bool := !s.data.isEmpty

/-- The method `s.includes(pat)`: `pat` occurs somewhere in `s`. -/
def jsIncludes (s pat : String) : Bool :=
  s.data.tails.any (fun t => pat.data.isPrefixOf t)

/-- A string made of white space only (the empty string included). -/
def whitespaceOnly (s : String) : Bool := s.data.all isJsWhitespace

/-! ## Form data -/

/-- The `formData` state: four text fields, all starting empty. -/
structure FormData where
  company : String
  position : String
  ctc : String
  location : String
  deriving DecidableEq, Repr

/-- The names of the four inputs, in the order `handleSubmit` checks them. -/
inductive Field where
  | company
  | position
  | ctc
  | location
  deriving DecidableEq, Repr

/-- Read one field of the form. -/
def FormData.get (f : FormData) : Field → String
  | .company => f.company
  | .position => f.position
  | .ctc => f.ctc
  | .location => f.location

/-- The update `{ ...formData, [name]: value }` of `handleChange`. -/
def handleChange (f : FormData) (name : Field) (value : String) : FormData :=
  match name with
  | .company => { f with company := value }
  | .position => { f with position := value }
  | .ctc => { f with ctc := value }
  | .location => { f with location := value }

/-- The initial `formData`. -/
def FormData.empty : FormData := ⟨"", "", "", ""⟩

/-! ## JavaScript values carried by the response

A finite number is the rational it denotes; the results of `+`, `*` and
`/` are rounded to binary64 as the language does, to the nearest double
with ties to even and with overflow to an infinity.  The sign of zero is
outside the model.  The non-finite numbers are kept, since `JSON.parse`
yields `Infinity` for an overflowing literal such as `1e999`. -/

/-- A JavaScript number. -/
inductive JsNum where
  | fin (q : ℚ)
  | nan
  | posInf
  | negInf
  deriving DecidableEq

/-- A piece of a string built by `+`: literal text, or the decimal
rendering `ToString(n)` of a number, which is kept symbolic. -/
inductive StrPart where
  | text (s : String)
  | number (n : JsNum)
  deriving DecidableEq

/-- A primitive JavaScript value, as a field of a JSON object can hold it
(`undefined` stands for an absent key).  A string is a concatenation of
parts; a string read from JSON is a single `text` part.  Nested objects and
arrays in the place of a figure are not modelled. -/
inductive JsVal where
  | undefined
  | null
  | bool (b : Bool)
  | num (n : JsNum)
  | str (parts : List StrPart)
  deriving DecidableEq

/-- The number of binary digits of a natural number, by halving at most
`fuel` times. -/
def bitLengthAux : Nat → Nat → Nat
  | 0, _ => 0
  | fuel + 1, n => if n = 0 then 0 else bitLengthAux fuel (n / 2) + 1

/-- The number of binary digits of a natural number (0 for 0). -/
def bitLength (n : Nat) : Nat := bitLengthAux n n

/-- The binary exponent of the positive fraction `n / d`: the greatest `L`
with `2 ^ L ≤ n / d`. -/
def floorLog2 (n d : Nat) : Int :=
  if d * 2 ^ (bitLength n - bitLength d) ≤ n * 2 ^ (bitLength d - bitLength n) then
    (bitLength n : Int) - (bitLength d : Int)
  else (bitLength n : Int) - (bitLength d : Int) - 1

/-- The fraction `n / d` rounded to the nearest natural number, a tie going
to the even one. -/
def roundHalfEvenDiv (n d : Nat) : Nat :=
  if 2 * (n % d) < d then n / d
  else if d < 2 * (n % d) then n / d + 1
  else if (n / d) % 2 = 0 then n / d
  else n / d + 1

/-- The rational is a binary64 double: in lowest terms its denominator is
a power of two not above `2 ^ 1074`, its numerator has at most 53
significant binary digits, and its magnitude is below `2 ^ 1024`. -/
def isDouble (q : ℚ) : Bool :=
  q.den == 2 ^ (bitLength q.den - 1) && decide (bitLength q.den ≤ 1075) &&
  (decide (q.num.natAbs < 2 ^ 53) ||
    q.num.natAbs % 2 ^ (bitLength q.num.natAbs - 53) == 0) &&
  decide (q.num.natAbs < 2 ^ 1024)

/-- The exact result of an operation as the double the language stores: a
double is kept; any other value goes to the nearest multiple of `2 ^ e`,
where `e` leaves 53 binary digits (and is at least `-1074`), a tie going to
the even multiple; a result of magnitude `2 ^ 1024` or more is an
infinity. -/
def roundDouble (q : ℚ) : JsNum :=
  if isDouble q then .fin q
  else
    let e : Int := max (floorLog2 q.num.natAbs q.den - 52) (-1074)
    let m : Nat := roundHalfEvenDiv (q.num.natAbs * 2 ^ (-e).toNat) (q.den * 2 ^ e.toNat)
    if 2 ^ 1024 * 2 ^ (-e).toNat ≤ m * 2 ^ e.toNat then
      (if 0 < q then .posInf else .negInf)
    else
      .fin ((if 0 < q then 1 else -1) * ((m * 2 ^ e.toNat : Nat) : ℚ) /
        ((2 ^ (-e).toNat : Nat) : ℚ))

/-- Addition of numbers: the exact sum rounded to a double, with the IEEE
rules for the non-finite ones. -/
def JsNum.add : JsNum → JsNum → JsNum
  | .nan, _ => .nan
  | _, .nan => .nan
  | .fin a, .fin b => roundDouble (a + b)
  | .fin _, .posInf => .posInf
  | .fin _, .negInf => .negInf
  | .posInf, .fin _ => .posInf
  | .negInf, .fin _ => .negInf
  | .posInf, .posInf => .posInf
  | .negInf, .negInf => .negInf
  | .posInf, .negInf => .nan
  | .negInf, .posInf => .nan

/-- A number is truthy unless it is zero or `NaN`. -/
def JsNum.truthy : JsNum → Bool
  | .fin q => decide (q ≠ 0)
  | .nan => false
  | .posInf => true
  | .negInf => true

/-- A part of a string is non-empty: the rendering of a number always is. -/
def StrPart.nonEmpty : StrPart → Bool
  | .text s => strTruthy s
  | .number _ => true

/-- The abstract operation `ToBoolean`. -/
def JsVal.truthy : JsVal → Bool
  | .undefined => false
  | .null => false
  | .bool b => b
  | .num n => n.truthy
  | .str parts => parts.any StrPart.nonEmpty

/-- The operator `a || b`: the left operand when it is truthy, else the
right one. -/
def jsOr (a b : JsVal) : JsVal := if a.truthy then a else b

/-- The abstract operation `ToString`, as parts of a string. -/
def JsVal.toParts : JsVal → List StrPart
  | .undefined => [.text "undefined"]
  | .null => [.text "null"]
  | .bool true => [.text "true"]
  | .bool false => [.text "false"]
  | .num n => [.number n]
  | .str parts => parts

/-- The abstract operation `ToNumber` on the values that are not strings
(`+` never applies it to a string: a string operand selects concatenation,
so the last case is not reached from `jsAdd`). -/
def JsVal.toNumber : JsVal → JsNum
  | .undefined => .nan
  | .null => .fin 0
  | .bool true => .fin 1
  | .bool false => .fin 0
  | .num n => n
  | .str _ => .nan

/-- The operator `a + b` on primitives: concatenation when either operand
is a string, numeric addition otherwise. -/
def jsAdd (a b : JsVal) : JsVal :=
  match a, b with
  | .str x, _ => .str (x ++ b.toParts)
  | _, .str y => .str (a.toParts ++ y)
  | _, _ => .num (a.toNumber.add b.toNumber)

/-- The value is a finite number. -/
def JsVal.isFiniteNumber : JsVal → Bool
  | .num (.fin _) => true
  | _ => false

/-- The number zero as a value. -/
def JsVal.zero : JsVal := .num (.fin 0)

/-! ## The response payload -/

/-- The `research_findings` block (figures in LPA). -/
structure ResearchFindings where
  company_policy : JsVal
  estimated_base_salary : JsVal
  estimated_stock_component : JsVal
  estimated_bonus : JsVal
  deriving DecidableEq

/-- The `deductions` object of the monthly breakdown. -/
structure Deductions where
  pf : JsVal
  tax_monthly : JsVal
  professional_tax : JsVal
  esi : JsVal
  other_deductions : JsVal
  deriving DecidableEq

/-- The `monthly_breakdown` block; `deductions = none` is a missing (or
null) deductions object. -/
structure MonthlyBreakdown where
  gross_monthly_cash : JsVal
  deductions : Option Deductions
  final_in_hand_salary : JsVal
  deriving DecidableEq

/-- The body `response.data` of a successful response.  An optional block
is `none` when the key is absent or null; a block that is present is an
object and so is truthy. -/
structure ApiResult where
  status : JsVal
  company : JsVal
  position : JsVal
  ctc : JsVal
  location : JsVal
  analysis : JsVal
  research_findings : Option ResearchFindings
  monthly_breakdown : Option MonthlyBreakdown
  notes : JsVal
  deriving DecidableEq

/-- A string read from JSON. -/
def JsVal.ofString (s : String) : JsVal := .str [.text s]

/-- The text of a string value none of whose parts is a number rendering. -/
def partsText : List StrPart → Option String
  | [] => some ""
  | .text s :: rest => (partsText rest).map (fun t => s ++ t)
  | .number _ :: _ => none

/-- Strict equality `v === lit` with a string literal: `v` is a string with
exactly that text (a string holding a symbolic number rendering, which no
payload field read from JSON is, compares unequal). -/
def JsVal.strictEqString (v : JsVal) (lit : String) : Bool :=
  match v with
  | .str parts => partsText parts == some lit
  | _ => false

/-! ## Application state and effects -/

/-- The component state: `formData`, `loading`, `result` (`none` is null)
and `error` (initially `null`). -/
structure AppState where
  formData : FormData
  loading : Bool
  result : Option ApiResult
  error : JsVal
  deriving DecidableEq

/-- The state on first render. -/
def AppState.init : AppState := ⟨FormData.empty, false, none, .null⟩

/-- The JSON body of the request. -/
structure RequestBody where
  company : String
  position : String
  ctc : String
  location : String
  deriving DecidableEq, Repr

/-- The body of an error response, as far as the handler reads it: its
`error` field (`undefined` when the key is absent). -/
structure ErrorBody where
  error : JsVal
  deriving DecidableEq

/-- The `err.response` of a failed request; `data = none` is a body that is
missing, null or not an object. -/
structure ErrorResponse where
  status : Nat
  data : Option ErrorBody
  deriving DecidableEq

/-- The exception caught by `handleSubmit`; `none` is `undefined`. -/
structure ApiError where
  code : Option String
  message : Option String
  response : Option ErrorResponse
  deriving DecidableEq

/-- How the awaited request ends. -/
inductive RequestOutcome where
  | success (data : ApiResult)
  | failure (err : ApiError)
  deriving DecidableEq

/-- What `handleSubmit` does to the outside: state setters, the request and
the two calls on the event and the console. -/
inductive Effect where
  | preventDefault
  | setLoading (b : Bool)
  | setError (e : JsVal)
  | setResult (r : Option ApiResult)
  | post (url : String) (body : RequestBody)
  | consoleError (err : ApiError)
  deriving DecidableEq

/-- An asynchronous handler: a sequence of effects with at most one
suspension point per `await`, where the rest of the handler waits for the
outcome of the request. -/
inductive Prog where
  | done
  | eff (e : Effect) (k : Prog)
  | await (url : String) (body : RequestBody) (k : RequestOutcome → Prog)

/-- A state setter applied to the state; the other effects leave it as it
is. -/
def Effect.apply (s : AppState) : Effect → AppState
  | .setLoading b => { s with loading := b }
  | .setError e => { s with error := e }
  | .setResult r => { s with result := r }
  | .preventDefault => s
  | .post _ _ => s
  | .consoleError _ => s

/-- The effect is a network request. -/
def Effect.isPost : Effect → Bool
  | .post _ _ => true
  | _ => false

/-- The effect writes `loading`, `result` or `error`. -/
def Effect.isStateWrite : Effect → Bool
  | .setLoading _ => true
  | .setError _ => true
  | .setResult _ => true
  | _ => false

/-! ## handleSubmit -/

/-- The expression `import.meta.env.VITE_API_URL || 'http://localhost:5000'`;
`none` is an unset variable. -/
def apiUrl (env : Option String) : String :=
  match env with
  | some u => if strTruthy u then u else "http://localhost:5000"
  | none => "http://localhost:5000"

/-- The chain `err.response?.data?.error`. -/
def responseDataError (err : ApiError) : JsVal :=
  match err.response with
  | none => .undefined
  | some r =>
    match r.data with
    | none => .undefined
    | some d => d.error

/-- The property `err.message` as a value. -/
def errMessage (err : ApiError) : JsVal :=
  match err.message with
  | none => .undefined
  | some m => .ofString m

/-- The test `err.code === 'ECONNREFUSED' || err.message?.includes('Network Error')`. -/
def isConnectivityFailure (err : ApiError) : Bool :=
  err.code == some "ECONNREFUSED" ||
  (match err.message with
   | none => false
   | some m => jsIncludes m "Network Error")

/-- The `finally` block. -/
def finallyBlock : Prog := .eff (.setLoading false) .done

/-- The part of `handleSubmit` after the `await`: the rest of the `try`
block or the `catch` block, then `finally`. -/
def handleSubmitResume (o : RequestOutcome) : Prog :=
  match o with
  | .success data => .eff (.setResult (some data)) finallyBlock
  | .failure err =>
    .eff (.consoleError err)
      (if isConnectivityFailure err then
        .eff (.setError (.ofString
          "Cannot connect to server. Please make sure the backend server is running on port 5000."))
          finallyBlock
      else
        .eff (.setError
          (jsOr (jsOr (responseDataError err) (errMessage err))
            (.ofString "Failed to calculate salary breakdown. Please try again.")))
          finallyBlock)

/-- The handler `handleSubmit`, run on the form `f` of the current render. -/
def handleSubmit (env : Option String) (f : FormData) : Prog :=
  .eff .preventDefault
    (if !strTruthy (jsTrim f.company) then
      .eff (.setError (.ofString "Please enter a company name")) .done
    else if !strTruthy (jsTrim f.position) then
      .eff (.setError (.ofString "Please enter a job role/position")) .done
    else if !strTruthy (jsTrim f.ctc) then
      .eff (.setError (.ofString "Please enter Annual CTC")) .done
    else if !strTruthy (jsTrim f.location) then
      .eff (.setError (.ofString "Please enter work location")) .done
    else
      .eff (.setLoading true)
        (.eff (.setError .null)
          (.eff (.setResult none)
            (.await (apiUrl env ++ "/api/salary")
              { company := jsTrim f.company, position := jsTrim f.position,
                ctc := jsTrim f.ctc, location := jsTrim f.location }
              handleSubmitResume))))

/-- The effects of a handler up to its first suspension (the request, if
it issues one, is the last of them). -/
def Prog.start : Prog → List Effect
  | .done => []
  | .eff e k => e :: k.start
  | .await url body _ => [.post url body]

/-- The effects of a handler run to its end, every request ending as `o`. -/
def Prog.trace (o : RequestOutcome) : Prog → List Effect
  | .done => []
  | .eff e k => e :: k.trace o
  | .await url body k => .post url body :: (k o).trace o

/-- The state after a sequence of effects. -/
def applyEffects (s : AppState) (es : List Effect) : AppState :=
  es.foldl Effect.apply s

/-! ## Sessions: handlers interleaved with request completions -/

/-- The running application: the component state and the handlers that are
suspended at their `await`, oldest first. -/
structure Session where
  app : AppState
  pending : List (RequestOutcome → Prog)

/-- The session on first render. -/
def Session.init : Session := ⟨AppState.init, []⟩

/-- Run a handler until it ends or suspends. -/
def Prog.exec : Prog → Session → Session
  | .done, s => s
  | .eff e k, s => k.exec { s with app := e.apply s.app }
  | .await _ _ k, s => { s with pending := s.pending ++ [k] }

/-- What can happen to the running application: an input changes, the form
is submitted, or the request of the suspended handler number `i` ends. -/
inductive Event where
  | edit (name : Field) (value : String)
  | submit
  | complete (i : Nat) (o : RequestOutcome)

/-- One event handled to completion.  The completion of a request that is
not in flight changes nothing. -/
def step (env : Option String) (s : Session) : Event → Session
  | .edit name value =>
    { s with app := { s.app with formData := handleChange s.app.formData name value } }
  | .submit => (handleSubmit env s.app.formData).exec s
  | .complete i o =>
    match s.pending.get? i with
    | none => s
    | some k => (k o).exec { s with pending := s.pending.eraseIdx i }

/-- A sequence of events handled one after the other. -/
def run (env : Option String) (s : Session) (es : List Event) : Session :=
  es.foldl (step env) s

/-- All four fields are non-empty after trimming. -/
def formValid (f : FormData) : Bool :=
  strTruthy (jsTrim f.company) && strTruthy (jsTrim f.position) &&
  strTruthy (jsTrim f.ctc) && strTruthy (jsTrim f.location)

/-- The event respects the submit control, which is `disabled={loading}`,
and submits a form that fails validation only while no result is held. -/
def Event.guarded (s : Session) : Event → Bool
  | .edit _ _ => true
  | .submit => !s.app.loading && (formValid s.app.formData || s.app.result.isNone)
  | .complete _ _ => true

/-- Every event of the sequence is guarded in the state it meets. -/
def admissible (env : Option String) : Session → List Event → Bool
  | _, [] => true
  | s, e :: es => e.guarded s && admissible env (step env s e) es

/-! ## The four request states of the specification -/

/-- Nothing requested, nothing shown. -/
def isIdle (s : AppState) : Bool := !s.loading && s.result.isNone && s.error == .null

/-- A request is in flight, earlier result and error cleared. -/
def isLoading (s : AppState) : Bool := s.loading && s.result.isNone && s.error == .null

/-- A result is held and no error. -/
def isSucceeded (s : AppState) : Bool := !s.loading && s.result.isSome && s.error == .null

/-- An error is held and no result. -/
def isFailed (s : AppState) : Bool := !s.loading && s.result.isNone && s.error != .null

/-- How many of the four request states hold. -/
def requestStateCount (s : AppState) : Nat :=
  (if isIdle s then 1 else 0) + (if isLoading s then 1 else 0) +
  (if isSucceeded s then 1 else 0) + (if isFailed s then 1 else 0)

/-! ## Rendering of the results section -/

/-- The blocks of the page below the form.  The rows inside a block are not
modelled. -/
inductive Panel where
  | spinner
  | error
  | mismatch
  | research
  | monthlyCash
  | deductions
  | finalSalary
  | notes
  deriving DecidableEq, Repr

/-- The children of the results card, in document order: the mismatch
warning; the research fragment with the gross monthly cash block nested in
it; the deductions fragment with the final in-hand salary and the notes. -/
def renderResult (r : ApiResult) : List Panel :=
  (if r.status.strictEqString "mismatch" then [Panel.mismatch] else []) ++
  (if !r.status.strictEqString "mismatch" && r.research_findings.isSome then
    [Panel.research] ++
      (if r.monthly_breakdown.isSome then [Panel.monthlyCash] else [])
   else []) ++
  (if !r.status.strictEqString "mismatch" && r.monthly_breakdown.isSome then
    [Panel.deductions, Panel.finalSalary] ++
      (if r.notes.truthy then [Panel.notes] else [])
   else [])

/-- The blocks rendered for a state: `loading && …`, `error && …` and
`result && !loading && …`. -/
def render (s : AppState) : List Panel :=
  (if s.loading then [Panel.spinner] else []) ++
  (if s.error.truthy then [Panel.error] else []) ++
  (match s.result with
   | some r => if !s.loading then renderResult r else []
   | none => [])

/-! ## Total deductions -/

/-- The access `deductions?.field`. -/
def optField (d : Option Deductions) (field : Deductions → JsVal) : JsVal :=
  match d with
  | none => .undefined
  | some x => field x

/-- The argument of `formatCurrency` in the "Total Deductions" row; the
table view and the card view hold the same expression. -/
def totalDeductions (d : Option Deductions) : JsVal :=
  jsAdd
    (jsAdd
      (jsAdd
        (jsAdd (jsOr (optField d Deductions.pf) .zero)
          (jsOr (optField d Deductions.tax_monthly) .zero))
        (jsOr (optField d Deductions.professional_tax) .zero))
      (jsOr (optField d Deductions.esi) .zero))
    (jsOr (optField d Deductions.other_deductions) .zero)

/-- The amount a field adds to the total when it is a finite number, and
zero for any other value. -/
def finiteAmount : JsVal → ℚ
  | .num (.fin q) => q
  | _ => 0

/-- A deductions object with every key absent. -/
def Deductions.absent : Deductions :=
  ⟨.undefined, .undefined, .undefined, .undefined, .undefined⟩

/-! ## The validation of the specification -/

/-- The order in which the specification checks the fields. -/
def fieldOrder : List Field := [.company, .position, .ctc, .location]

/-- The message the specification ties to each field. -/
def Field.message : Field → String
  | .company => "Please enter a company name"
  | .position => "Please enter a job role/position"
  | .ctc => "Please enter Annual CTC"
  | .location => "Please enter work location"

/-! ## Sample data -/

/-- The form of the end-to-end scenario of the specification. -/
def acmeForm : FormData := ⟨"Acme", "SDE1", "15,00,000", "Bangalore"⟩

/-- A breakdown result whose monthly breakdown has a final in-hand salary
of 65000 and nothing else. -/
def acmeResult : ApiResult :=
  { status := .ofString "success", company := .ofString "Acme",
    position := .ofString "SDE1", ctc := .ofString "15,00,000",
    location := .ofString "Bangalore", analysis := .undefined,
    research_findings := none,
    monthly_breakdown := some ⟨.undefined, none, .num (.fin 65000)⟩,
    notes := .undefined }

/-- The error of a request answered with status 400 and the given body. -/
def badRequest (body : Option ErrorBody) : ApiError :=
  { code := some "ERR_BAD_REQUEST", message := some "Request failed with status code 400",
    response := some ⟨400, body⟩ }

/-- A session in which a result is shown and the form is then submitted
with the company erased: fill the form, submit, the request succeeds, clear
the company, submit again. -/
def staleResultEvents : List Event :=
  [.edit .company "Acme", .edit .position "SDE1", .edit .ctc "15,00,000",
    .edit .location "Bangalore", .submit, .complete 0 (.success acmeResult),
    .edit .company "", .submit]

/-- A session with two requests in flight at once: the first succeeds, the
second is refused. -/
def overlapEvents : List Event :=
  [.edit .company "Acme", .edit .position "SDE1", .edit .ctc "15,00,000",
    .edit .location "Bangalore", .submit, .submit,
    .complete 0 (.success acmeResult),
    .complete 0 (.failure ⟨some "ECONNREFUSED", none, none⟩)]

/-- A session of one submission at a time: fill the form, submit, the
request fails, submit again, the request succeeds. -/
def retryEvents : List Event :=
  [.edit .company "Acme", .edit .position "SDE1", .edit .ctc "15,00,000",
    .edit .location "Bangalore", .submit,
    .complete 0 (.failure (badRequest none)), .submit,
    .complete 0 (.success acmeResult)]

/-- The invariant of the guarded sessions: either no request is in flight,
`loading` is false and the result and the error are not both held, or
exactly one handler waits for its response, `loading` is true and both the
result and the error are cleared. -/
def SingleFlight (σ : Session) : Prop :=
  (σ.pending = [] ∧ σ.app.loading = false ∧
    (σ.app.result = none ∨ σ.app.error = .null)) ∨
  (σ.pending = [handleSubmitResume] ∧ σ.app.loading = true ∧
    σ.app.result = none ∧ σ.app.error = .null)

/-- The five fields of the total, read through `deductions?.field`, in the
order of the expression. -/
def deductionFields (d : Option Deductions) : List JsVal :=
  [optField d Deductions.pf, optField d Deductions.tax_monthly,
    optField d Deductions.professional_tax, optField d Deductions.esi,
    optField d Deductions.other_deductions]

/-! ## Deductions records as key lists -/

/-- The property access `obj.key` on an object given by its entries, in
the order of its keys: `undefined` when the key is absent. -/
def lookupField (kvs : List (String × JsVal)) (key : String) : JsVal :=
  (kvs.lookup key).getD .undefined

/-- The five fields the page reads from a deductions object. -/
def Deductions.ofEntries (kvs : List (String × JsVal)) : Deductions :=
  { pf := lookupField kvs "pf"
    tax_monthly := lookupField kvs "tax_monthly"
    professional_tax := lookupField kvs "professional_tax"
    esi := lookupField kvs "esi"
    other_deductions := lookupField kvs "other_deductions" }

/-- The keys the total is taken over. -/
def deductionKeys : List String :=
  ["pf", "tax_monthly", "professional_tax", "esi", "other_deductions"]

/-- The sum of the specification: the amounts of the entries that are
present under one of the five keys. -/
def presentSum (kvs : List (String × JsVal)) : ℚ :=
  ((kvs.filter (fun kv => deductionKeys.contains kv.1)).map (fun kv => finiteAmount kv.2)).sum

/-! ## Multiplication and division -/

/-- The abstract operation `ToNumber` on any primitive.  The conversion of
a string to a number, `StringToNumber` of the language runtime, is the
parameter `strToNum`. -/
def JsVal.toNumberWith (strToNum : List StrPart → JsNum) : JsVal → JsNum
  | .str parts => strToNum parts
  | .undefined => .nan
  | .null => .fin 0
  | .bool true => .fin 1
  | .bool false => .fin 0
  | .num n => n

/-- Multiplication of numbers: the exact product rounded to a double, with
the IEEE rules for the non-finite ones. -/
def JsNum.mul : JsNum → JsNum → JsNum
  | .nan, _ => .nan
  | _, .nan => .nan
  | .fin a, .fin b => roundDouble (a * b)
  | .fin a, .posInf => if a = 0 then .nan else if 0 < a then .posInf else .negInf
  | .fin a, .negInf => if a = 0 then .nan else if 0 < a then .negInf else .posInf
  | .posInf, .fin b => if b = 0 then .nan else if 0 < b then .posInf else .negInf
  | .negInf, .fin b => if b = 0 then .nan else if 0 < b then .negInf else .posInf
  | .posInf, .posInf => .posInf
  | .negInf, .negInf => .posInf
  | .posInf, .negInf => .negInf
  | .negInf, .posInf => .negInf

/-- Division of numbers: the exact quotient rounded to a double, with the
IEEE rules for the non-finite ones and for a zero divisor (taken as
positive zero). -/
def JsNum.div : JsNum → JsNum → JsNum
  | .nan, _ => .nan
  | _, .nan => .nan
  | .fin a, .fin b =>
    if b = 0 then (if a = 0 then .nan else if 0 < a then .posInf else .negInf)
    else roundDouble (a / b)
  | .fin _, .posInf => .fin 0
  | .fin _, .negInf => .fin 0
  | .posInf, .fin b => if 0 ≤ b then .posInf else .negInf
  | .negInf, .fin b => if 0 ≤ b then .negInf else .posInf
  | .posInf, .posInf => .nan
  | .posInf, .negInf => .nan
  | .negInf, .posInf => .nan
  | .negInf, .negInf => .nan

/-- The operator `a * b`. -/
def jsMul (strToNum : List StrPart → JsNum) (a b : JsVal) : JsVal :=
  .num ((a.toNumberWith strToNum).mul (b.toNumberWith strToNum))

/-- The operator `a / b`. -/
def jsDiv (strToNum : List StrPart → JsNum) (a b : JsVal) : JsVal :=
  .num ((a.toNumberWith strToNum).div (b.toNumberWith strToNum))

/-- The argument `(figure || 0) * 100000 / 12` of `formatCurrency` for a
figure of the research findings. -/
def monthlyEquivalent (strToNum : List StrPart → JsNum) (figure : JsVal) : JsVal :=
  jsDiv strToNum (jsMul strToNum (jsOr figure .zero) (.num (.fin 100000))) (.num (.fin 12))

/-- The three figures of a research findings block that are converted. -/
def researchFigures (rf : ResearchFindings) : List JsVal :=
  [rf.estimated_base_salary, rf.estimated_stock_component, rf.estimated_bonus]

/-! ## Currency formatting -/

/-- Modelled from the spec: the grouping of the platform formatter, which
is not code of the repository.  On the digits from the least significant
one, a comma goes in front of every further group of two digits. -/
def groupPairsRev : List Char → List Char
  | [] => []
  | [a] => [',', a]
  | a :: b :: rest => ',' :: a :: b :: groupPairsRev rest

/-- Modelled from the spec: Indian digit grouping of the platform
formatter, on the digits from the least significant one: the first three
digits form one group, the digits after them are grouped in twos. -/
def indianGroupingRev (r : List Char) : List Char :=
  r.take 3 ++ groupPairsRev (r.drop 3)

/-- Modelled from the spec: the decimal digits of `n` in Indian grouping,
as the platform formatter writes them. -/
def indianGrouping (n : Nat) : List Char :=
  (indianGroupingRev (Nat.toDigits 10 n).reverse).reverse

/-- Modelled from the spec: the magnitude of an amount as the platform
formatter displays it with no fraction digits.  The specification names no
rounding mode; the nearest integer is taken, a tie going away from zero,
which is the default of the platform.  An integer is displayed as it is. -/
def roundedMagnitude (q : ℚ) : Nat :=
  (2 * q.num.natAbs + q.den) / (2 * q.den)

/-- Modelled from the spec: the platform call
`new Intl.NumberFormat('en-IN', {style: 'currency', currency: 'INR',
maximumFractionDigits: 0}).format(x)`, which is not code of the
repository: the rupee sign and the amount in Indian grouping without
fraction digits.  The minus sign of a negative amount and the rendering of
`NaN` and of the infinities follow the platform; no claim depends on
them. -/
def intlFormatINR : JsNum → String
  | .fin q =>
    (if q < 0 then "-" else "") ++ "₹" ++ String.mk (indianGrouping (roundedMagnitude q))
  | .nan => "₹NaN"
  | .posInf => "₹∞"
  | .negInf => "-₹∞"

/-- The function `formatCurrency`. -/
def formatCurrency (strToNum : List StrPart → JsNum) (amount : JsVal) : String :=
  if amount = .null ∨ amount = .undefined then "N/A"
  else intlFormatINR (amount.toNumberWith strToNum)

/-- A conversion of strings to numbers that reads every string as `NaN`,
as the runtime does for a text that is not a numeric literal. -/
def strToNumNaN : List StrPart → JsNum := fun _ => .nan

/-! ## Sums in double arithmetic -/

/-- Five amounts added from the left as `+` adds them, each partial sum
rounded to a double. -/
def addFive (a b c d e : ℚ) : JsNum :=
  ((((JsNum.fin a).add (.fin b)).add (.fin c)).add (.fin d)).add (.fin e)

/-- The exact partial sums of five amounts, from the left. -/
def partialSums (a b c d e : ℚ) : List ℚ :=
  [a + b, a + b + c, a + b + c + d, a + b + c + d + e]

/-- The exact partial sums of the amounts of a deductions object, in the
order of the total. -/
def deductionPartialSums (d : Option Deductions) : List ℚ :=
  partialSums (finiteAmount (optField d Deductions.pf))
    (finiteAmount (optField d Deductions.tax_monthly))
    (finiteAmount (optField d Deductions.professional_tax))
    (finiteAmount (optField d Deductions.esi))
    (finiteAmount (optField d Deductions.other_deductions))

/-- The arguments handed to `formatCurrency` by the three figures of the
research panel, in document order. -/
def researchAmounts (strToNum : List StrPart → JsNum) (rf : ResearchFindings) : List JsVal :=
  [monthlyEquivalent strToNum rf.estimated_base_salary,
    monthlyEquivalent strToNum rf.estimated_stock_component,
    monthlyEquivalent strToNum rf.estimated_bonus]

/-- The three amounts of the research panel as they are displayed. -/
def researchRows (strToNum : List StrPart → JsNum) (rf : ResearchFindings) : List String :=
  (researchAmounts strToNum rf).map (formatCurrency strToNum)

/-- A session that ends with a result on display and a space typed over
the company: fill the form, submit, the request succeeds, edit. -/
def shownResultEvents : List Event :=
  [.edit .company "Acme", .edit .position "SDE1", .edit .ctc "15,00,000",
    .edit .location "Bangalore", .submit, .complete 0 (.success acmeResult),
    .edit .company " "]

/-! ## Lemmas on strings -/

/-- Trimming leaves nothing exactly when every character is white space. -/
theorem trimChars_eq_nil_iff (cs : List Char) :
    trimChars cs = [] ↔ cs.all isJsWhitespace = true := by
  unfold trimChars
  rw [List.reverse_eq_nil_iff, List.dropWhile_eq_nil_iff]
  constructor
  · intro h
    have h1 : ∀ x ∈ cs.dropWhile isJsWhitespace, isJsWhitespace x = true := by
      intro x hx
      exact h x (List.mem_reverse.mpr hx)
    have h2 : (cs.dropWhile isJsWhitespace).dropWhile isJsWhitespace = [] :=
      List.dropWhile_eq_nil_iff.mpr h1
    rw [List.dropWhile_idempotent] at h2
    rw [List.all_eq_true]
    exact List.dropWhile_eq_nil_iff.mp h2
  · intro h x hx
    rw [List.all_eq_true] at h
    have h2 : cs.dropWhile isJsWhitespace = [] := List.dropWhile_eq_nil_iff.mpr h
    rw [h2] at hx
    simp at hx

/-- The trimmed string is empty exactly for a string of white space only. -/
theorem jsTrim_eq_empty_iff (s : String) : jsTrim s = "" ↔ whitespaceOnly s = true := by
  unfold jsTrim whitespaceOnly
  rw [← trimChars_eq_nil_iff]
  constructor
  · intro h
    exact congrArg String.data h
  · intro h
    rw [h]

/-- The test `!s.trim()` holds exactly for a string of white space only. -/
theorem strTruthy_jsTrim (s : String) : strTruthy (jsTrim s) = !whitespaceOnly s := by
  have h := trimChars_eq_nil_iff s.data
  unfold strTruthy jsTrim whitespaceOnly
  cases hw : s.data.all isJsWhitespace
  · have : trimChars s.data ≠ [] := fun hn => by
      rw [h.mp hn] at hw; cases hw
    cases ht : trimChars s.data with
    | nil => exact absurd ht this
    | cons a l => rfl
  · rw [h.mpr hw]; rfl

/-- The method `includes` decides whether the pattern occurs as a contiguous
block of the string. -/
theorem jsIncludes_iff (s pat : String) :
    jsIncludes s pat = true ↔ pat.data <:+: s.data := by
  unfold jsIncludes
  rw [List.any_eq_true, List.infix_iff_prefix_suffix]
  constructor
  · rintro ⟨t, ht, hp⟩
    exact ⟨t, List.isPrefixOf_iff_prefix.mp hp, (List.mem_tails _ _).mp ht⟩
  · rintro ⟨t, hp, ht⟩
    exact ⟨t, (List.mem_tails _ _).mpr ht, List.isPrefixOf_iff_prefix.mpr hp⟩

/-! ## Validation (claims C1 and C2) -/

/-- C1: when `k` is the first field, in the order company, position, ctc,
location, whose trimmed value is empty, `handleSubmit` sets exactly the
message of `k` as the error and does nothing else to the state, whatever
the later fields hold; and a form `g` that has the empty string where `f`
has a field of white space only gets the same outcome as `f`. -/
theorem validation_fail_fast (env : Option String) (o : RequestOutcome) (s : AppState)
    (f g : FormData) (k : Field)
    (hfirst : fieldOrder.find? (fun j => decide (jsTrim (f.get j) = "")) = some k)
    (hg : ∀ j, g.get j = f.get j ∨ (whitespaceOnly (f.get j) = true ∧ g.get j = "")) :
    (handleSubmit env f).trace o = [.preventDefault, .setError (.ofString k.message)] ∧
    applyEffects s ((handleSubmit env f).trace o) = { s with error := .ofString k.message } ∧
    (handleSubmit env g).trace o = (handleSubmit env f).trace o := by
  have hw : ∀ j, whitespaceOnly (g.get j) = whitespaceOnly (f.get j) := by
    intro j
    rcases hg j with h | ⟨h1, h2⟩
    · rw [h]
    · rw [h1, h2]; rfl
  have hc := hw .company
  have hp := hw .position
  have hx := hw .ctc
  have hl := hw .location
  simp only [FormData.get] at hc hp hx hl
  simp only [fieldOrder, List.find?, jsTrim_eq_empty_iff, FormData.get] at hfirst
  refine ⟨?_, ?_, ?_⟩
  all_goals
    simp only [handleSubmit, strTruthy_jsTrim, Bool.not_not, hc, hp, hx, hl]
  all_goals
    cases h1 : whitespaceOnly f.company <;> cases h2 : whitespaceOnly f.position <;>
    cases h3 : whitespaceOnly f.ctc <;> cases h4 : whitespaceOnly f.location <;>
    simp [h1, h2, h3, h4] at hfirst <;> subst hfirst <;>
    simp [Prog.trace, applyEffects, Effect.apply, Field.message]

/-- C1 at a concrete form: the company is white space only and the later
fields are empty too; the error is the message of the company. -/
theorem validation_fail_fast_witness :
    (handleSubmit none ⟨" \t", "", "SDE1", ""⟩).trace
        (.failure ⟨none, none, none⟩) =
      [.preventDefault, .setError (.ofString "Please enter a company name")] ∧
    applyEffects AppState.init
        ((handleSubmit none ⟨" \t", "", "SDE1", ""⟩).trace (.failure ⟨none, none, none⟩)) =
      { AppState.init with error := .ofString "Please enter a company name" } ∧
    (handleSubmit none ⟨"", "", "SDE1", ""⟩).trace (.failure ⟨none, none, none⟩) =
      (handleSubmit none ⟨" \t", "", "SDE1", ""⟩).trace (.failure ⟨none, none, none⟩) :=
  validation_fail_fast none (.failure ⟨none, none, none⟩) AppState.init
    ⟨" \t", "", "SDE1", ""⟩ ⟨"", "", "SDE1", ""⟩ .company (by decide)
    (by intro j; cases j <;> decide)

/-- The test `formValid` in terms of the fields: no field is white space
only. -/
theorem formValid_eq (f : FormData) :
    formValid f = (!whitespaceOnly f.company && !whitespaceOnly f.position &&
      !whitespaceOnly f.ctc && !whitespaceOnly f.location) := by
  simp only [formValid, strTruthy_jsTrim]

/-- The effects of the handler on a form that fails validation: no request,
no write of `loading`, and the error message of a field that is empty after
trimming as the only state write. -/
theorem invalid_submit_effects (env : Option String) (o : RequestOutcome)
    (s : AppState) (σ : Session) (f : FormData) (h : formValid f = false) :
    ((handleSubmit env f).trace o).any Effect.isPost = false ∧
    Effect.setLoading true ∉ (handleSubmit env f).trace o ∧
    ∃ k : Field, jsTrim (f.get k) = "" ∧
      ((handleSubmit env f).trace o).filter Effect.isStateWrite =
        [.setError (.ofString k.message)] ∧
      applyEffects s ((handleSubmit env f).trace o) =
        { s with error := .ofString k.message } ∧
      (handleSubmit env f).exec σ =
        { σ with app := { σ.app with error := .ofString k.message } } := by
  rw [formValid_eq] at h
  simp only [handleSubmit, strTruthy_jsTrim, Bool.not_not, jsTrim_eq_empty_iff]
  cases h1 : whitespaceOnly f.company
  · cases h2 : whitespaceOnly f.position
    · cases h3 : whitespaceOnly f.ctc
      · cases h4 : whitespaceOnly f.location
        · simp [h1, h2, h3, h4] at h
        · refine ⟨?_, ?_, .location, ?_⟩ <;>
            simp [Prog.trace, Prog.exec, applyEffects, Effect.apply, Effect.isPost,
              Effect.isStateWrite, Field.message, FormData.get, h4]
      · refine ⟨?_, ?_, .ctc, ?_⟩ <;>
          simp [Prog.trace, Prog.exec, applyEffects, Effect.apply, Effect.isPost,
            Effect.isStateWrite, Field.message, FormData.get, h3]
    · refine ⟨?_, ?_, .position, ?_⟩ <;>
        simp [Prog.trace, Prog.exec, applyEffects, Effect.apply, Effect.isPost,
          Effect.isStateWrite, Field.message, FormData.get, h2]
  · refine ⟨?_, ?_, .company, ?_⟩ <;>
      simp [Prog.trace, Prog.exec, applyEffects, Effect.apply, Effect.isPost,
        Effect.isStateWrite, Field.message, FormData.get, h1]

/-- C2, as stated, fails: with a result on display and a space typed over
the company, the form fails validation and `handleSubmit` writes only the
error; the result stays, so the state it leaves is not the Failed state,
and none of the four request states holds. -/
theorem invalid_submit_no_network_counterexample :
    formValid (run none Session.init shownResultEvents).app.formData = false ∧
    (run none Session.init shownResultEvents).app.result = some acmeResult ∧
    isFailed (applyEffects (run none Session.init shownResultEvents).app
      ((handleSubmit none (run none Session.init shownResultEvents).app.formData).trace
        (.failure ⟨none, none, none⟩))) = false ∧
    requestStateCount (applyEffects (run none Session.init shownResultEvents).app
      ((handleSubmit none (run none Session.init shownResultEvents).app.formData).trace
        (.failure ⟨none, none, none⟩))) = 0 := by
  decide

/-- C2, amended: for a form that fails validation, `handleSubmit` issues no
request and never sets `loading` to true; its only state write is the error
message of a field that is empty after trimming, so the state after it is
the state before it with that error, and no handler is left waiting for a
response; the state after it is the Failed state exactly when, before it,
`loading` was false and no result was held. -/
theorem invalid_submit_no_network (env : Option String) (o : RequestOutcome)
    (s : AppState) (σ : Session) (f : FormData) (h : formValid f = false) :
    ((handleSubmit env f).trace o).any Effect.isPost = false ∧
    Effect.setLoading true ∉ (handleSubmit env f).trace o ∧
    (∃ k : Field, jsTrim (f.get k) = "" ∧
      ((handleSubmit env f).trace o).filter Effect.isStateWrite =
        [.setError (.ofString k.message)] ∧
      applyEffects s ((handleSubmit env f).trace o) =
        { s with error := .ofString k.message } ∧
      (handleSubmit env f).exec σ =
        { σ with app := { σ.app with error := .ofString k.message } }) ∧
    (isFailed (applyEffects s ((handleSubmit env f).trace o)) = true ↔
      (s.loading = false ∧ s.result = none)) := by
  obtain ⟨h1, h2, k, hk⟩ := invalid_submit_effects env o s σ f h
  refine ⟨h1, h2, ⟨k, hk⟩, ?_⟩
  rw [hk.2.2.1]
  cases hl : s.loading <;> cases hr : s.result <;>
    simp [isFailed, JsVal.ofString, hl, hr]

/-- C2, amended, at a concrete form whose location is missing, submitted
from the initial state: the state after it is the Failed state. -/
theorem invalid_submit_no_network_witness :
    ((handleSubmit none ⟨"Acme", "SDE1", "15 LPA", " "⟩).trace
        (.failure ⟨none, none, none⟩)).any Effect.isPost = false ∧
    Effect.setLoading true ∉
      (handleSubmit none ⟨"Acme", "SDE1", "15 LPA", " "⟩).trace (.failure ⟨none, none, none⟩) ∧
    (∃ k : Field, jsTrim ((⟨"Acme", "SDE1", "15 LPA", " "⟩ : FormData).get k) = "" ∧
      ((handleSubmit none ⟨"Acme", "SDE1", "15 LPA", " "⟩).trace
          (.failure ⟨none, none, none⟩)).filter Effect.isStateWrite =
        [.setError (.ofString k.message)] ∧
      applyEffects AppState.init
          ((handleSubmit none ⟨"Acme", "SDE1", "15 LPA", " "⟩).trace
            (.failure ⟨none, none, none⟩)) =
        { AppState.init with error := .ofString k.message } ∧
      (handleSubmit none ⟨"Acme", "SDE1", "15 LPA", " "⟩).exec Session.init =
        { Session.init with app := { Session.init.app with error := .ofString k.message } }) ∧
    (isFailed (applyEffects AppState.init
        ((handleSubmit none ⟨"Acme", "SDE1", "15 LPA", " "⟩).trace
          (.failure ⟨none, none, none⟩))) = true ↔
      (AppState.init.loading = false ∧ AppState.init.result = none)) :=
  invalid_submit_no_network none (.failure ⟨none, none, none⟩) AppState.init Session.init
    ⟨"Acme", "SDE1", "15 LPA", " "⟩ (by decide)

/-! ## The request (claims C3 to C6) -/

/-- The handler of a form that passes validation, unfolded. -/
theorem handleSubmit_valid (env : Option String) (f : FormData) (h : formValid f = true) :
    handleSubmit env f =
      .eff .preventDefault (.eff (.setLoading true) (.eff (.setError .null)
        (.eff (.setResult none)
          (.await (apiUrl env ++ "/api/salary")
            { company := jsTrim f.company, position := jsTrim f.position,
              ctc := jsTrim f.ctc, location := jsTrim f.location }
            handleSubmitResume)))) := by
  rw [formValid_eq] at h
  simp only [Bool.and_eq_true, Bool.not_eq_true'] at h
  obtain ⟨⟨⟨h1, h2⟩, h3⟩, h4⟩ := h
  simp [handleSubmit, strTruthy_jsTrim, h1, h2, h3, h4]

/-- The resumed handler issues no request. -/
theorem resume_no_post (o o' : RequestOutcome) :
    ((handleSubmitResume o).trace o').filter Effect.isPost = [] := by
  cases o with
  | success data => rfl
  | failure err =>
    simp only [handleSubmitResume]
    cases isConnectivityFailure err <;> rfl

/-- C3: for a form whose four trimmed fields are all non-empty and from any
prior state, `handleSubmit` first sets `loading` to true and clears `error`
and `result`, and then issues the request, a POST to `{API_BASE}/api/salary`
whose body holds the four trimmed fields as text; whatever the outcome, it
is the only request of the run. -/
theorem valid_submit_enters_loading_then_posts (env : Option String) (o : RequestOutcome)
    (s : AppState) (f : FormData) (h : formValid f = true) :
    (handleSubmit env f).start =
      [.preventDefault, .setLoading true, .setError .null, .setResult none,
        .post (apiUrl env ++ "/api/salary")
          { company := jsTrim f.company, position := jsTrim f.position,
            ctc := jsTrim f.ctc, location := jsTrim f.location }] ∧
    applyEffects s (handleSubmit env f).start =
      { s with loading := true, result := none, error := .null } ∧
    ((handleSubmit env f).trace o).filter Effect.isPost =
      [.post (apiUrl env ++ "/api/salary")
        { company := jsTrim f.company, position := jsTrim f.position,
          ctc := jsTrim f.ctc, location := jsTrim f.location }] := by
  rw [handleSubmit_valid env f h]
  refine ⟨rfl, rfl, ?_⟩
  simp only [Prog.trace, List.filter, Effect.isPost, resume_no_post]

/-- C3 at the form of the end-to-end scenario, with padding to trim. -/
theorem valid_submit_enters_loading_then_posts_witness :
    (handleSubmit none ⟨" Acme", "SDE1", "15,00,000 ", "Bangalore"⟩).start =
      [.preventDefault, .setLoading true, .setError .null, .setResult none,
        .post (apiUrl none ++ "/api/salary")
          { company := jsTrim " Acme", position := jsTrim "SDE1",
            ctc := jsTrim "15,00,000 ", location := jsTrim "Bangalore" }] ∧
    applyEffects AppState.init
        (handleSubmit none ⟨" Acme", "SDE1", "15,00,000 ", "Bangalore"⟩).start =
      { AppState.init with loading := true, result := none, error := .null } ∧
    ((handleSubmit none ⟨" Acme", "SDE1", "15,00,000 ", "Bangalore"⟩).trace
        (.failure ⟨none, none, none⟩)).filter Effect.isPost =
      [.post (apiUrl none ++ "/api/salary")
        { company := jsTrim " Acme", position := jsTrim "SDE1",
          ctc := jsTrim "15,00,000 ", location := jsTrim "Bangalore" }] :=
  valid_submit_enters_loading_then_posts none (.failure ⟨none, none, none⟩) AppState.init
    ⟨" Acme", "SDE1", "15,00,000 ", "Bangalore"⟩ (by decide)

/-- C4: for a form that passes validation and a request that succeeds with
response body `P`, the state after `handleSubmit` holds `P` itself as the
result, no error, and `loading` false, from any prior state; the same holds
when the submission and the completion are two events of a session. -/
theorem success_stores_payload (env : Option String) (s : AppState) (f : FormData)
    (P : ApiResult) (h : formValid f = true) :
    applyEffects s ((handleSubmit env f).trace (.success P)) =
      { s with loading := false, result := some P, error := .null } ∧
    ∀ σ : Session, σ.app.formData = f →
      (run env σ [.submit, .complete σ.pending.length (.success P)]).app =
        { σ.app with loading := false, result := some P, error := .null } := by
  constructor
  · rw [handleSubmit_valid env f h]
    rfl
  · intro σ hσ
    subst hσ
    have hs : step env σ .submit =
        { app := { σ.app with loading := true, result := none, error := .null },
          pending := σ.pending ++ [handleSubmitResume] } := by
      show (handleSubmit env σ.app.formData).exec σ = _
      rw [handleSubmit_valid env _ h]
      rfl
    show (step env (step env σ .submit) (.complete σ.pending.length (.success P))).app = _
    rw [hs]
    simp [step, Prog.exec, Effect.apply, handleSubmitResume, finallyBlock]

/-- C4 at the end-to-end scenario of the specification. -/
theorem success_stores_payload_witness :
    applyEffects AppState.init ((handleSubmit none acmeForm).trace (.success acmeResult)) =
      { AppState.init with loading := false, result := some acmeResult, error := .null } ∧
    ∀ σ : Session, σ.app.formData = acmeForm →
      (run none σ [.submit, .complete σ.pending.length (.success acmeResult)]).app =
        { σ.app with loading := false, result := some acmeResult, error := .null } :=
  success_stores_payload none AppState.init acmeForm acmeResult (by decide)

/-- The state after the handler of a valid form whose request fails. -/
theorem failure_state (env : Option String) (s : AppState) (f : FormData) (err : ApiError)
    (h : formValid f = true) :
    applyEffects s ((handleSubmit env f).trace (.failure err)) =
      { s with
        loading := false
        result := none
        error :=
          if isConnectivityFailure err then
            .ofString
              "Cannot connect to server. Please make sure the backend server is running on port 5000."
          else
            jsOr (jsOr (responseDataError err) (errMessage err))
              (.ofString "Failed to calculate salary breakdown. Please try again.") } := by
  rw [handleSubmit_valid env f h]
  simp only [Prog.trace, handleSubmitResume]
  cases isConnectivityFailure err <;> rfl

/-- C5, as stated, fails: a 400 response whose body carries the `error`
field `""` is not a connectivity failure, and the error set is the message
of the exception, not the `error` field of the body. -/
theorem error_text_priority_counterexample :
    isConnectivityFailure (badRequest (some ⟨.ofString ""⟩)) = false ∧
    responseDataError (badRequest (some ⟨.ofString ""⟩)) = .ofString "" ∧
    (applyEffects AppState.init
        ((handleSubmit none acmeForm).trace
          (.failure (badRequest (some ⟨.ofString ""⟩))))).error =
      .ofString "Request failed with status code 400" ∧
    (applyEffects AppState.init
        ((handleSubmit none acmeForm).trace
          (.failure (badRequest (some ⟨.ofString ""⟩))))).error ≠
      responseDataError (badRequest (some ⟨.ofString ""⟩)) := by
  decide

/-- C5, amended: for a form that passes validation and a failed request
that is not a connectivity failure, the error is (1) the `error` field of
the response body when the body carries a truthy one (a non-empty string),
else (2) the message of the exception when it is a non-empty string, else
(3) the fallback text; `loading` ends false and no result is held. -/
theorem error_text_priority (env : Option String) (s : AppState) (f : FormData)
    (err : ApiError) (h : formValid f = true)
    (hcode : err.code ≠ some "ECONNREFUSED")
    (hmsg : ∀ m, err.message = some m → ¬ ("Network Error").data <:+: m.data) :
    ((responseDataError err).truthy = true →
      (applyEffects s ((handleSubmit env f).trace (.failure err))).error =
        responseDataError err) ∧
    ((responseDataError err).truthy = false → ∀ m, err.message = some m → m ≠ "" →
      (applyEffects s ((handleSubmit env f).trace (.failure err))).error = .ofString m) ∧
    ((responseDataError err).truthy = false → (err.message = none ∨ err.message = some "") →
      (applyEffects s ((handleSubmit env f).trace (.failure err))).error =
        .ofString "Failed to calculate salary breakdown. Please try again.") ∧
    (applyEffects s ((handleSubmit env f).trace (.failure err))).loading = false ∧
    (applyEffects s ((handleSubmit env f).trace (.failure err))).result = none := by
  have hc : isConnectivityFailure err = false := by
    unfold isConnectivityFailure
    rw [Bool.or_eq_false_iff]
    constructor
    · simpa using hcode
    · cases hm : err.message with
      | none => rfl
      | some m =>
        have := hmsg m hm
        rw [← jsIncludes_iff] at this
        simpa using this
  rw [failure_state env s f err h, hc]
  refine ⟨?_, ?_, ?_, rfl, rfl⟩
  · intro ht
    simp [jsOr, ht]
  · intro ht m hm hne
    have hd : m.data ≠ [] := fun hd => hne (String.ext hd)
    have hmt : (errMessage err).truthy = true := by
      simp [errMessage, hm, JsVal.ofString, JsVal.truthy, StrPart.nonEmpty, strTruthy, hd]
    have hj : jsOr (jsOr (responseDataError err) (errMessage err))
        (.ofString "Failed to calculate salary breakdown. Please try again.") =
        errMessage err := by
      unfold jsOr
      rw [ht]
      simp only [Bool.false_eq_true, if_false, hmt, if_true]
    simp only [hj]
    simp [errMessage, hm]
  · intro ht hm
    have hmt : (errMessage err).truthy = false := by
      rcases hm with hm | hm <;>
        simp [errMessage, hm, JsVal.ofString, JsVal.truthy, StrPart.nonEmpty, strTruthy]
    simp [jsOr, ht, hmt]

/-- C5 at the scenario of the specification: a 400 response with body
`{error: "Invalid CTC format"}` leaves exactly that text as the error. -/
theorem error_text_priority_witness :
    (applyEffects AppState.init
        ((handleSubmit none acmeForm).trace
          (.failure (badRequest (some ⟨.ofString "Invalid CTC format"⟩))))).error =
      .ofString "Invalid CTC format" :=
  (error_text_priority none AppState.init acmeForm
    (badRequest (some ⟨.ofString "Invalid CTC format"⟩)) (by decide) (by decide)
    (by
      intro m hm
      have hm' : m = "Request failed with status code 400" := by
        simpa [badRequest] using hm.symm
      subst hm'
      rw [← jsIncludes_iff]
      decide)).1 (by decide)

/-- C6: for a form that passes validation and a request that fails with
`err.code` equal to `'ECONNREFUSED'` or with a message that contains
`'Network Error'`, the state ends with exactly the fixed guidance message
as the error, with `loading` false and no result. -/
theorem connectivity_failure_message (env : Option String) (s : AppState) (f : FormData)
    (err : ApiError) (h : formValid f = true)
    (hc : err.code = some "ECONNREFUSED" ∨
      ∃ m, err.message = some m ∧ ("Network Error").data <:+: m.data) :
    applyEffects s ((handleSubmit env f).trace (.failure err)) =
      { s with
        loading := false
        result := none
        error := .ofString
          "Cannot connect to server. Please make sure the backend server is running on port 5000." } := by
  have hc' : isConnectivityFailure err = true := by
    unfold isConnectivityFailure
    rw [Bool.or_eq_true]
    rcases hc with hc | ⟨m, hm, hi⟩
    · left
      simp [hc]
    · right
      rw [hm]
      exact (jsIncludes_iff m "Network Error").mpr hi
  rw [failure_state env s f err h, hc']
  rfl

/-- C6 at a connection-refused error that also carries a response body with
an `error` field and a message of its own. -/
theorem connectivity_failure_message_witness :
    applyEffects AppState.init
        ((handleSubmit none acmeForm).trace
          (.failure ⟨some "ECONNREFUSED", some "connect ECONNREFUSED 127.0.0.1:5000",
            some ⟨502, some ⟨.ofString "upstream down"⟩⟩⟩)) =
      { AppState.init with
        loading := false
        result := none
        error := .ofString
          "Cannot connect to server. Please make sure the backend server is running on port 5000." } :=
  connectivity_failure_message none AppState.init acmeForm
    ⟨some "ECONNREFUSED", some "connect ECONNREFUSED 127.0.0.1:5000",
      some ⟨502, some ⟨.ofString "upstream down"⟩⟩⟩ (by decide) (Or.inl rfl)

/-! ## Result and error (claim C7) -/

/-- The handler of a form that fails validation only sets the error. -/
theorem handleSubmit_invalid_exec (env : Option String) (σ : Session) (f : FormData)
    (h : formValid f = false) :
    ∃ e : JsVal, (handleSubmit env f).exec σ = { σ with app := { σ.app with error := e } } := by
  rw [formValid_eq] at h
  simp only [handleSubmit, strTruthy_jsTrim, Bool.not_not]
  cases h1 : whitespaceOnly f.company <;> cases h2 : whitespaceOnly f.position <;>
    cases h3 : whitespaceOnly f.ctc <;> cases h4 : whitespaceOnly f.location <;>
    simp [h1, h2, h3, h4] at h <;>
    exact ⟨_, rfl⟩

/-- The handler of a form that passes validation sets `loading`, clears the
result and the error, and waits for the response. -/
theorem handleSubmit_valid_exec (env : Option String) (σ : Session) (f : FormData)
    (h : formValid f = true) :
    (handleSubmit env f).exec σ =
      { app := { σ.app with loading := true, result := none, error := .null },
        pending := σ.pending ++ [handleSubmitResume] } := by
  rw [handleSubmit_valid env f h]
  rfl

/-- The resumed handler writes the result or the error, not both, and sets
`loading` to false. -/
theorem resume_exec (o : RequestOutcome) (σ : Session) :
    ((handleSubmitResume o).exec σ).pending = σ.pending ∧
    ((handleSubmitResume o).exec σ).app.loading = false ∧
    (((handleSubmitResume o).exec σ).app.result = σ.app.result ∨
      ((handleSubmitResume o).exec σ).app.error = σ.app.error) := by
  cases o with
  | success data => exact ⟨rfl, rfl, Or.inr rfl⟩
  | failure err =>
    simp only [handleSubmitResume]
    cases isConnectivityFailure err <;> exact ⟨rfl, rfl, Or.inl rfl⟩

/-- A guarded event keeps the invariant. -/
theorem singleFlight_step (env : Option String) (σ : Session) (e : Event)
    (hinv : SingleFlight σ) (hg : e.guarded σ = true) : SingleFlight (step env σ e) := by
  cases e with
  | edit name value =>
    rcases hinv with ⟨hp, hl, hre⟩ | ⟨hp, hl, hr, he⟩
    · exact Or.inl ⟨hp, hl, hre⟩
    · exact Or.inr ⟨hp, hl, hr, he⟩
  | submit =>
    simp only [Event.guarded, Bool.and_eq_true, Bool.not_eq_true', Bool.or_eq_true] at hg
    obtain ⟨hl, hv⟩ := hg
    rcases hinv with ⟨hp, _, hre⟩ | ⟨_, hl', _, _⟩
    · cases hval : formValid σ.app.formData
      · have hr : σ.app.result = none := by
          rcases hv with hv | hv
          · rw [hval] at hv; cases hv
          · simpa using hv
        obtain ⟨e, he⟩ := handleSubmit_invalid_exec env σ σ.app.formData hval
        show SingleFlight ((handleSubmit env σ.app.formData).exec σ)
        rw [he]
        exact Or.inl ⟨hp, hl, Or.inl hr⟩
      · show SingleFlight ((handleSubmit env σ.app.formData).exec σ)
        rw [handleSubmit_valid_exec env σ _ hval, hp]
        exact Or.inr ⟨rfl, rfl, rfl, rfl⟩
    · rw [hl] at hl'; cases hl'
  | complete i o =>
    rcases hinv with ⟨hp, hl, hre⟩ | ⟨hp, hl, hr, he⟩
    · have : step env σ (.complete i o) = σ := by
        simp [step, hp]
      rw [this]
      exact Or.inl ⟨hp, hl, hre⟩
    · cases i with
      | zero =>
        have : step env σ (.complete 0 o) =
            (handleSubmitResume o).exec { σ with pending := [] } := by
          simp [step, hp]
        rw [this]
        obtain ⟨h1, h2, h3⟩ := resume_exec o { σ with pending := [] }
        refine Or.inl ⟨h1, h2, ?_⟩
        rcases h3 with h3 | h3
        · exact Or.inl (h3.trans hr)
        · exact Or.inr (h3.trans he)
      | succ n =>
        have : step env σ (.complete (n + 1) o) = σ := by
          simp [step, hp]
        rw [this]
        exact Or.inr ⟨hp, hl, hr, he⟩

/-- The invariant holds along every guarded sequence of events. -/
theorem singleFlight_run (env : Option String) (es : List Event) :
    ∀ σ : Session, SingleFlight σ → admissible env σ es = true →
      SingleFlight (run env σ es) := by
  induction es with
  | nil => intro σ hinv _; exact hinv
  | cons e es ih =>
    intro σ hinv hadm
    simp only [admissible, Bool.and_eq_true] at hadm
    exact ih (step env σ e) (singleFlight_step env σ e hinv hadm.1) hadm.2

/-- C7, as stated, fails: after a result is shown, submitting the form with
the company erased sets the error and keeps the result; and when two
requests overlap, the success of one and the failure of the other leave
both a result and an error.  In both states none of the four request states
holds. -/
theorem result_error_exclusive_counterexample :
    ((run none Session.init staleResultEvents).app.result = some acmeResult ∧
      (run none Session.init staleResultEvents).app.error =
        .ofString "Please enter a company name" ∧
      requestStateCount (run none Session.init staleResultEvents).app = 0) ∧
    ((run none Session.init overlapEvents).app.result = some acmeResult ∧
      (run none Session.init overlapEvents).app.error =
        .ofString
          "Cannot connect to server. Please make sure the backend server is running on port 5000." ∧
      requestStateCount (run none Session.init overlapEvents).app = 0) := by
  refine ⟨⟨rfl, rfl, ?_⟩, ⟨rfl, rfl, ?_⟩⟩ <;> decide

/-- C7, amended: in every state reached from the initial state by field
edits, submissions and request completions in which the form is submitted
only while `loading` is false (the submit control is disabled while it is
true) and a form that fails validation is submitted only while no result is
held, the result and the error are never both non-null, and exactly one of
Idle, Loading, Succeeded, Failed holds. -/
theorem result_error_exclusive (env : Option String) (es : List Event)
    (h : admissible env Session.init es = true) :
    ¬ ((run env Session.init es).app.result ≠ none ∧
        (run env Session.init es).app.error ≠ .null) ∧
    requestStateCount (run env Session.init es).app = 1 := by
  have hinit : SingleFlight Session.init := Or.inl ⟨rfl, rfl, Or.inl rfl⟩
  have hinv := singleFlight_run env es Session.init hinit h
  generalize (run env Session.init es) = σ at hinv
  rcases hinv with ⟨_, hl, hre⟩ | ⟨_, hl, hr, he⟩
  · rcases hre with hr | he
    · refine ⟨fun hh => hh.1 hr, ?_⟩
      by_cases he : σ.app.error = .null <;>
        simp [requestStateCount, isIdle, isLoading, isSucceeded, isFailed, hl, hr, he]
    · refine ⟨fun hh => hh.2 he, ?_⟩
      cases hr : σ.app.result <;>
        simp [requestStateCount, isIdle, isLoading, isSucceeded, isFailed, hl, hr, he]
  · refine ⟨fun hh => hh.1 hr, ?_⟩
    simp [requestStateCount, isIdle, isLoading, isSucceeded, isFailed, hl, hr, he]

/-- C7, amended, at a session of two attempts, the first failing and the
second succeeding: a result is held and no error. -/
theorem result_error_exclusive_witness :
    admissible none Session.init retryEvents = true ∧
    (run none Session.init retryEvents).app.result = some acmeResult ∧
    (¬ ((run none Session.init retryEvents).app.result ≠ none ∧
        (run none Session.init retryEvents).app.error ≠ .null) ∧
      requestStateCount (run none Session.init retryEvents).app = 1) :=
  ⟨by decide, rfl, result_error_exclusive none retryEvents (by decide)⟩

/-! ## Render guards (claims C8 and C9) -/

/-- C8: for a result whose status is `'mismatch'`, the results card holds
the mismatch panel and nothing else, so the research, monthly cash,
deductions, final in-hand salary and notes panels are not rendered in any
state that holds this result, whatever `research_findings` and
`monthly_breakdown` are; and the mismatch panel is rendered once `loading`
is false. -/
theorem mismatch_only (r : ApiResult) (s : AppState) (h : r.status = .ofString "mismatch") :
    renderResult r = [Panel.mismatch] ∧
    (s.result = some r → ∀ p ∈ render s,
      p ≠ .research ∧ p ≠ .monthlyCash ∧ p ≠ .deductions ∧ p ≠ .finalSalary ∧ p ≠ .notes) ∧
    (s.result = some r → s.loading = false → Panel.mismatch ∈ render s) := by
  have hm : r.status.strictEqString "mismatch" = true := by
    rw [h]; decide
  have hr : renderResult r = [Panel.mismatch] := by
    simp [renderResult, hm]
  refine ⟨hr, ?_, ?_⟩
  · intro hs p hp
    have hsub : p = .spinner ∨ p = .error ∨ p = .mismatch := by
      simp only [render, hs, hr] at hp
      cases hl : s.loading <;> cases he : s.error.truthy <;>
        simp [hl, he] at hp <;> tauto
    rcases hsub with hp | hp | hp <;> subst hp <;> simp
  · intro hs hl
    simp [render, hs, hr, hl]

/-- C8 at a mismatch result that carries both blocks all the same. -/
theorem mismatch_only_witness :
    renderResult { acmeResult with
        status := .ofString "mismatch"
        research_findings := some ⟨.undefined, .undefined, .undefined, .undefined⟩ } =
      [Panel.mismatch] :=
  (mismatch_only { acmeResult with
      status := .ofString "mismatch"
      research_findings := some ⟨.undefined, .undefined, .undefined, .undefined⟩ }
    AppState.init rfl).1

/-- C9, as stated, fails: for a result that is not a mismatch and has a
`monthly_breakdown` but no `research_findings`, the gross monthly cash
block is not rendered, although the deductions panel is. -/
theorem panels_independent_counterexample :
    acmeResult.status.strictEqString "mismatch" = false ∧
    acmeResult.monthly_breakdown.isSome = true ∧
    acmeResult.research_findings = none ∧
    Panel.monthlyCash ∉ renderResult acmeResult ∧
    renderResult acmeResult = [Panel.deductions, Panel.finalSalary] := by
  decide

/-- C9, amended: for a result that is not a mismatch, the research panel
is rendered if and only if `research_findings` is present, and the
deductions and final in-hand salary panel if and only if
`monthly_breakdown` is present, each whatever the other block is; the gross
monthly cash block is rendered if and only if both blocks are present.
With `research_findings` alone only the research panel is rendered, with
`monthly_breakdown` alone only the deductions and final in-hand salary
panel, with the notes when there are any. -/
theorem panels_independent (r : ApiResult) (h : r.status.strictEqString "mismatch" = false) :
    (Panel.research ∈ renderResult r ↔ r.research_findings.isSome = true) ∧
    (Panel.deductions ∈ renderResult r ↔ r.monthly_breakdown.isSome = true) ∧
    (Panel.finalSalary ∈ renderResult r ↔ r.monthly_breakdown.isSome = true) ∧
    (Panel.monthlyCash ∈ renderResult r ↔
      (r.research_findings.isSome = true ∧ r.monthly_breakdown.isSome = true)) ∧
    (r.research_findings.isSome = true → r.monthly_breakdown = none →
      renderResult r = [Panel.research]) ∧
    (r.research_findings = none → r.monthly_breakdown.isSome = true →
      renderResult r =
        [Panel.deductions, Panel.finalSalary] ++ (if r.notes.truthy then [Panel.notes] else [])) := by
  cases hrf : r.research_findings <;> cases hmb : r.monthly_breakdown <;>
    cases hn : r.notes.truthy <;>
    simp [renderResult, h, hrf, hmb, hn]

/-- C9, amended, at a result with research findings and no monthly
breakdown: only the research panel is rendered. -/
theorem panels_independent_witness :
    renderResult { acmeResult with
        research_findings := some ⟨.undefined, .num (.fin 15), .undefined, .undefined⟩
        monthly_breakdown := none } = [Panel.research] :=
  (panels_independent { acmeResult with
      research_findings := some ⟨.undefined, .num (.fin 15), .undefined, .undefined⟩
      monthly_breakdown := none } (by decide)).2.2.2.2.1 rfl rfl

/-! ## Total deductions (claim C10) -/

/-- A field that is falsy or a finite number enters the total as its
finite amount. -/
theorem jsOr_zero_of_falsy_or_finite (v : JsVal)
    (h : v.truthy = false ∨ v.isFiniteNumber = true) :
    jsOr v .zero = .num (.fin (finiteAmount v)) := by
  unfold jsOr
  rcases h with h | h
  · rw [h]
    cases v with
    | num n =>
      cases n with
      | fin q =>
        have hq : q = 0 := by
          simpa [JsVal.truthy, JsNum.truthy] using h
        simp [JsVal.zero, finiteAmount, hq]
      | _ => simp [JsVal.zero, finiteAmount]
    | _ => simp [JsVal.zero, finiteAmount]
  · cases v with
    | num n =>
      cases n with
      | fin q =>
        by_cases hq : q = 0
        · simp [JsVal.truthy, JsNum.truthy, JsVal.zero, finiteAmount, hq]
        · simp [JsVal.truthy, JsNum.truthy, finiteAmount, hq]
      | _ => simp [JsVal.isFiniteNumber] at h
    | _ => simp [JsVal.isFiniteNumber] at h

/-- The operator `+` on two numbers is the addition of numbers. -/
theorem jsAdd_num (x y : JsNum) : jsAdd (.num x) (.num y) = .num (x.add y) := rfl

/-- A double is not rounded. -/
theorem roundDouble_of_isDouble (q : ℚ) (h : isDouble q = true) : roundDouble q = .fin q := by
  unfold roundDouble
  rw [if_pos h]

/-- Rounding gives a finite number or an infinity, never `NaN`. -/
theorem roundDouble_ne_nan (q : ℚ) : roundDouble q ≠ .nan := by
  unfold roundDouble
  split
  · simp
  · simp only
    split
    · split <;> simp
    · simp

/-- Adding a finite number to a number that is not `NaN` does not give
`NaN`. -/
theorem add_fin_ne_nan (x : JsNum) (c : ℚ) (h : x ≠ .nan) : x.add (.fin c) ≠ .nan := by
  cases x with
  | fin a => exact roundDouble_ne_nan _
  | nan => exact absurd rfl h
  | posInf => simp [JsNum.add]
  | negInf => simp [JsNum.add]

/-- The sum of five finite amounts is not `NaN`. -/
theorem addFive_ne_nan (a b c d e : ℚ) : addFive a b c d e ≠ .nan := by
  unfold addFive
  exact add_fin_ne_nan _ _ (add_fin_ne_nan _ _ (add_fin_ne_nan _ _
    (add_fin_ne_nan _ _ (by simp))))

/-- A sum that is a double is exact. -/
theorem add_fin_exact (a b : ℚ) (h : isDouble (a + b) = true) :
    (JsNum.fin a).add (.fin b) = .fin (a + b) :=
  roundDouble_of_isDouble _ h

/-- When every partial sum is a double, the sum of five amounts is exact. -/
theorem addFive_exact (a b c d e : ℚ) (h : ∀ s ∈ partialSums a b c d e, isDouble s = true) :
    addFive a b c d e = .fin (a + b + c + d + e) := by
  unfold addFive
  rw [add_fin_exact a b (h _ (by simp [partialSums])),
    add_fin_exact _ c (h _ (by simp [partialSums])),
    add_fin_exact _ d (h _ (by simp [partialSums])),
    add_fin_exact _ e (h _ (by simp [partialSums]))]

/-- The total of fields that are falsy or finite is the sum of their
amounts, taken from the left in double arithmetic. -/
theorem totalDeductions_eq_addFive (d : Option Deductions)
    (h : ∀ v ∈ deductionFields d, v.truthy = false ∨ v.isFiniteNumber = true) :
    totalDeductions d =
      .num (addFive (finiteAmount (optField d Deductions.pf))
        (finiteAmount (optField d Deductions.tax_monthly))
        (finiteAmount (optField d Deductions.professional_tax))
        (finiteAmount (optField d Deductions.esi))
        (finiteAmount (optField d Deductions.other_deductions))) := by
  have h1 := jsOr_zero_of_falsy_or_finite _ (h (optField d Deductions.pf) (by simp [deductionFields]))
  have h2 := jsOr_zero_of_falsy_or_finite _
    (h (optField d Deductions.tax_monthly) (by simp [deductionFields]))
  have h3 := jsOr_zero_of_falsy_or_finite _
    (h (optField d Deductions.professional_tax) (by simp [deductionFields]))
  have h4 := jsOr_zero_of_falsy_or_finite _ (h (optField d Deductions.esi) (by simp [deductionFields]))
  have h5 := jsOr_zero_of_falsy_or_finite _
    (h (optField d Deductions.other_deductions) (by simp [deductionFields]))
  unfold totalDeductions
  rw [h1, h2, h3, h4, h5, jsAdd_num, jsAdd_num, jsAdd_num, jsAdd_num]
  rfl

/-- A whole number up to `2 ^ 53` is a double. -/
theorem isDouble_natCast (n : Nat) (h : n ≤ 2 ^ 53) : isDouble (n : ℚ) = true := by
  have hp : (2 : Nat) ^ 53 < 2 ^ 1024 := Nat.pow_lt_pow_right (by decide) (by decide)
  have hb : n < 2 ^ 1024 := lt_of_le_of_lt h hp
  have h1 : bitLength 1 = 1 := by decide
  unfold isDouble
  rw [Rat.den_natCast, Rat.num_natCast, Int.natAbs_ofNat, h1]
  simp only [Bool.and_eq_true, Bool.or_eq_true, decide_eq_true_eq, beq_iff_eq]
  refine ⟨⟨⟨by decide, by decide⟩, ?_⟩, hb⟩
  rcases Nat.lt_or_ge n (2 ^ 53) with hl | hg
  · exact Or.inl hl
  · have hn : n = 2 ^ 53 := le_antisymm h hg
    subst hn
    right
    decide!

/-- The partial sums of whole amounts that total at most `2 ^ 53` are
doubles. -/
theorem partialSums_isDouble_of_nat (a b c d e : Nat) (h : a + b + c + d + e ≤ 2 ^ 53) :
    ∀ s ∈ partialSums (a : ℚ) b c d e, isDouble s = true := by
  intro s hs
  simp only [partialSums, List.mem_cons, List.mem_singleton, List.not_mem_nil, or_false] at hs
  rcases hs with hs | hs | hs | hs <;> subst hs
  · have := isDouble_natCast (a + b) (by omega)
    simpa using this
  · have := isDouble_natCast (a + b + c) (by omega)
    simpa using this
  · have := isDouble_natCast (a + b + c + d) (by omega)
    simpa using this
  · have := isDouble_natCast (a + b + c + d + e) (by omega)
    simpa using this

/-- C10, as stated, fails: a field that is an infinity (as `JSON.parse`
yields for the literal `1e999`) is not treated as 0 and makes the total
infinite; a field that is a non-numeric string makes the total a string,
here `"abc"` followed by the rendering of four zeros; and two finite
fields of `2 ^ 1023` each have an infinite total. -/
theorem total_deductions_defaulting_counterexample :
    totalDeductions (some { Deductions.absent with pf := .num .posInf }) = .num .posInf ∧
    (totalDeductions (some { Deductions.absent with pf := .num .posInf })).isFiniteNumber =
      false ∧
    totalDeductions (some { Deductions.absent with pf := .ofString "abc" }) =
      .str [.text "abc", .number (.fin 0), .number (.fin 0), .number (.fin 0),
        .number (.fin 0)] ∧
    totalDeductions (some { Deductions.absent with
        pf := .num (.fin (2 ^ 1023))
        tax_monthly := .num (.fin (2 ^ 1023)) }) = .num .posInf := by
  decide!

/-- C10, amended: when each of `pf`, `tax_monthly`, `professional_tax`,
`esi`, `other_deductions` is falsy (absent or undefined, null, NaN, 0,
false, the empty string) or a finite number, for every deductions value
including a missing deductions object, the falsy fields count as 0: the
total is the sum of the amounts of the fields, taken from the left in
double arithmetic, a number that is never NaN or undefined; when every
partial sum is exactly a double, the total is finite and is the exact sum
of the finite fields. -/
theorem total_deductions_defaulting (d : Option Deductions)
    (h : ∀ v ∈ deductionFields d, v.truthy = false ∨ v.isFiniteNumber = true) :
    totalDeductions d =
      .num (addFive (finiteAmount (optField d Deductions.pf))
        (finiteAmount (optField d Deductions.tax_monthly))
        (finiteAmount (optField d Deductions.professional_tax))
        (finiteAmount (optField d Deductions.esi))
        (finiteAmount (optField d Deductions.other_deductions))) ∧
    totalDeductions d ≠ .num .nan ∧ totalDeductions d ≠ .undefined ∧
    ((∀ s ∈ deductionPartialSums d, isDouble s = true) →
      totalDeductions d =
        .num (.fin (finiteAmount (optField d Deductions.pf) +
          finiteAmount (optField d Deductions.tax_monthly) +
          finiteAmount (optField d Deductions.professional_tax) +
          finiteAmount (optField d Deductions.esi) +
          finiteAmount (optField d Deductions.other_deductions))) ∧
      (totalDeductions d).isFiniteNumber = true) := by
  have ht := totalDeductions_eq_addFive d h
  refine ⟨ht, ?_, ?_, ?_⟩
  · rw [ht]
    intro hn
    exact addFive_ne_nan _ _ _ _ _ (JsVal.num.inj hn)
  · rw [ht]
    simp
  · intro hs
    rw [ht, addFive_exact _ _ _ _ _ hs]
    exact ⟨rfl, rfl⟩

/-- C10, amended, at a deductions object with `pf` 1000, `tax_monthly`
2000, `esi` null and `other_deductions` NaN: the total is 3000; and at a
missing deductions object the total is 0. -/
theorem total_deductions_defaulting_witness :
    totalDeductions (some ⟨.num (.fin 1000), .num (.fin 2000), .undefined, .null, .num .nan⟩) =
      .num (.fin 3000) ∧
    totalDeductions none = .num (.fin 0) := by
  have h1 := (total_deductions_defaulting
    (some ⟨.num (.fin 1000), .num (.fin 2000), .undefined, .null, .num .nan⟩)
    (by decide)).2.2.2 (by decide!)
  have h2 := (total_deductions_defaulting none (by decide)).2.2.2 (by decide!)
  constructor
  · rw [h1.1]
    simp [optField, finiteAmount]
    norm_num
  · rw [h2.1]
    simp [optField, finiteAmount]

/-! ## The total as a sum (claim C11) -/

/-- Property access on an object with one more entry in front. -/
theorem lookupField_cons (k : String) (v : JsVal) (rest : List (String × JsVal))
    (key : String) :
    lookupField ((k, v) :: rest) key = if key = k then v else lookupField rest key := by
  unfold lookupField
  by_cases h : key = k
  · simp [List.lookup, h]
  · have hb : (key == k) = false := by simpa using h
    simp [List.lookup, hb, h]

/-- A key that is not among the entries reads as `undefined`. -/
theorem lookupField_absent (kvs : List (String × JsVal)) (key : String)
    (h : key ∉ kvs.map Prod.fst) : lookupField kvs key = .undefined := by
  induction kvs with
  | nil => rfl
  | cons kv rest ih =>
    obtain ⟨k, v⟩ := kv
    simp only [List.map_cons, List.mem_cons, not_or] at h
    rw [lookupField_cons, if_neg h.1]
    exact ih h.2

/-- What a property access reads is `undefined` or the value of an entry. -/
theorem lookupField_mem (kvs : List (String × JsVal)) (key : String) :
    lookupField kvs key = .undefined ∨ (key, lookupField kvs key) ∈ kvs := by
  induction kvs with
  | nil => exact Or.inl rfl
  | cons kv rest ih =>
    obtain ⟨k, v⟩ := kv
    rw [lookupField_cons]
    by_cases h : key = k
    · subst h
      simp
    · rw [if_neg h]
      rcases ih with ih | ih
      · exact Or.inl ih
      · exact Or.inr (List.mem_cons_of_mem _ ih)

/-- With distinct keys, the sum over the present entries is the sum of the
amounts read under the five keys. -/
theorem presentSum_eq_lookups (kvs : List (String × JsVal))
    (hk : (kvs.map Prod.fst).Nodup) :
    presentSum kvs =
      finiteAmount (lookupField kvs "pf") + finiteAmount (lookupField kvs "tax_monthly") +
      finiteAmount (lookupField kvs "professional_tax") + finiteAmount (lookupField kvs "esi") +
      finiteAmount (lookupField kvs "other_deductions") := by
  induction kvs with
  | nil => simp [presentSum, lookupField, finiteAmount]
  | cons kv rest ih =>
    obtain ⟨k, v⟩ := kv
    simp only [List.map_cons, List.nodup_cons] at hk
    have ih' := ih hk.2
    have hrest : presentSum ((k, v) :: rest) =
        (if deductionKeys.contains k then finiteAmount v else 0) + presentSum rest := by
      unfold presentSum
      rw [List.filter_cons]
      cases hc : deductionKeys.contains k <;> simp
    rw [hrest, ih']
    simp only [lookupField_cons]
    by_cases h1 : k = "pf"
    · subst h1
      have := lookupField_absent rest "pf" hk.1
      simp [this, finiteAmount, deductionKeys]
      ring
    by_cases h2 : k = "tax_monthly"
    · subst h2
      have := lookupField_absent rest "tax_monthly" hk.1
      simp [this, finiteAmount, deductionKeys]
      ring
    by_cases h3 : k = "professional_tax"
    · subst h3
      have := lookupField_absent rest "professional_tax" hk.1
      simp [this, finiteAmount, deductionKeys]
      ring
    by_cases h4 : k = "esi"
    · subst h4
      have := lookupField_absent rest "esi" hk.1
      simp [this, finiteAmount, deductionKeys]
      ring
    by_cases h5 : k = "other_deductions"
    · subst h5
      have := lookupField_absent rest "other_deductions" hk.1
      simp [this, finiteAmount, deductionKeys]
      ring
    · have hc : deductionKeys.contains k = false := by
        simp [deductionKeys, h1, h2, h3, h4, h5]
      rw [hc]
      simp [Ne.symm h1, Ne.symm h2, Ne.symm h3, Ne.symm h4, Ne.symm h5]

/-- Removing a key leaves what is read under another key. -/
theorem lookupField_filter_ne (kvs : List (String × JsVal)) (key drop : String)
    (h : key ≠ drop) :
    lookupField (kvs.filter (fun kv => kv.1 != drop)) key = lookupField kvs key := by
  induction kvs with
  | nil => rfl
  | cons kv rest ih =>
    obtain ⟨k, v⟩ := kv
    rw [List.filter_cons]
    by_cases hk : k = drop
    · subst hk
      simp only [bne_self_eq_false, Bool.false_eq_true, if_false]
      rw [lookupField_cons, if_neg h, ih]
    · have hb : (k != drop) = true := by simpa using hk
      simp only [hb, if_true]
      rw [lookupField_cons, lookupField_cons, ih]

/-- A removed key reads as `undefined`. -/
theorem lookupField_filter_self (kvs : List (String × JsVal)) (drop : String) :
    lookupField (kvs.filter (fun kv => kv.1 != drop)) drop = .undefined := by
  apply lookupField_absent
  intro hmem
  rw [List.mem_map] at hmem
  obtain ⟨kv, hkv, hfst⟩ := hmem
  have := (List.mem_filter.mp hkv).2
  simp [hfst] at this

/-- With distinct keys, what is read under a key does not depend on the
order of the entries. -/
theorem lookupField_perm {l₁ l₂ : List (String × JsVal)} (hp : l₁.Perm l₂)
    (hk : (l₁.map Prod.fst).Nodup) (key : String) :
    lookupField l₁ key = lookupField l₂ key := by
  induction hp with
  | nil => rfl
  | cons x _ ih =>
    obtain ⟨k, v⟩ := x
    simp only [List.map_cons, List.nodup_cons] at hk
    rw [lookupField_cons, lookupField_cons, ih hk.2]
  | swap x y l =>
    obtain ⟨kx, vx⟩ := x
    obtain ⟨ky, vy⟩ := y
    simp only [List.map_cons, List.nodup_cons, List.mem_cons, not_or] at hk
    have hne : ky ≠ kx := hk.1.1
    simp only [lookupField_cons]
    by_cases h1 : key = ky
    · have h2 : key ≠ kx := fun h => hne (h1.symm.trans h)
      simp [h1, hne]
    · simp [h1]
  | trans h₁ _ ih₁ ih₂ =>
    exact (ih₁ hk).trans (ih₂ ((h₁.map Prod.fst).nodup_iff.mp hk))

/-- C11, as stated, fails: for the record `{pf: 9007199254740992,
tax_monthly: 1}` the sum of the present fields is 9007199254740993, which
is not a double, and the total is 9007199254740992. -/
theorem total_is_sum_of_present_counterexample :
    totalDeductions (some (.ofEntries
      [("pf", .num (.fin 9007199254740992)), ("tax_monthly", .num (.fin 1))])) =
      .num (.fin 9007199254740992) ∧
    presentSum [("pf", .num (.fin 9007199254740992)), ("tax_monthly", .num (.fin 1))] =
      9007199254740993 ∧
    totalDeductions (some (.ofEntries
      [("pf", .num (.fin 9007199254740992)), ("tax_monthly", .num (.fin 1))])) ≠
      .num (.fin (presentSum
        [("pf", .num (.fin 9007199254740992)), ("tax_monthly", .num (.fin 1))])) := by
  decide!

/-- C11, amended: for a deductions record with distinct keys whose fields
are absent or finite numbers and whose partial sums, in the order `pf`,
`tax_monthly`, `professional_tax`, `esi`, `other_deductions`, are each
exactly a double, the total is the sum of the fields present among these
five keys, an absent field adding 0; the total is the same for the entries
in any other order; when `esi` is absent, the record without the `esi` key
has the same total; and whole amounts that total at most `2 ^ 53` have
partial sums that are doubles. -/
theorem total_is_sum_of_present (kvs kvs' : List (String × JsVal))
    (hk : (kvs.map Prod.fst).Nodup)
    (hfin : ∀ kv ∈ kvs, kv.2 = .undefined ∨ kv.2.isFiniteNumber = true)
    (hperm : kvs.Perm kvs')
    (hexact : ∀ s ∈ deductionPartialSums (some (.ofEntries kvs)), isDouble s = true) :
    totalDeductions (some (.ofEntries kvs)) = .num (.fin (presentSum kvs)) ∧
    totalDeductions (some (.ofEntries kvs')) = totalDeductions (some (.ofEntries kvs)) ∧
    (lookupField kvs "esi" = .undefined →
      totalDeductions (some (.ofEntries (kvs.filter (fun kv => kv.1 != "esi")))) =
        totalDeductions (some (.ofEntries kvs))) ∧
    (∀ a b c d e : Nat, a + b + c + d + e ≤ 2 ^ 53 →
      ∀ s ∈ partialSums (a : ℚ) b c d e, isDouble s = true) := by
  refine ⟨?_, ?_, ?_, partialSums_isDouble_of_nat⟩
  · have hv : ∀ v ∈ deductionFields (some (Deductions.ofEntries kvs)),
        v.truthy = false ∨ v.isFiniteNumber = true := by
      intro v hv
      simp only [deductionFields, optField, Deductions.ofEntries, List.mem_cons,
        List.mem_singleton, List.not_mem_nil, or_false] at hv
      rcases hv with hv | hv | hv | hv | hv <;> subst hv
      all_goals
        rcases lookupField_mem kvs _ with hm | hm
        · left; rw [hm]; rfl
        · rcases hfin _ hm with hu | hf
          · have hu' : lookupField kvs _ = JsVal.undefined := hu
            left; rw [hu']; rfl
          · right; exact hf
    rw [totalDeductions_eq_addFive _ hv, addFive_exact _ _ _ _ _ hexact,
      presentSum_eq_lookups kvs hk]
    rfl
  · have : Deductions.ofEntries kvs' = Deductions.ofEntries kvs := by
      simp only [Deductions.ofEntries]
      rw [lookupField_perm hperm hk "pf", lookupField_perm hperm hk "tax_monthly",
        lookupField_perm hperm hk "professional_tax", lookupField_perm hperm hk "esi",
        lookupField_perm hperm hk "other_deductions"]
    rw [this]
  · intro hesi
    have : Deductions.ofEntries (kvs.filter (fun kv => kv.1 != "esi")) =
        Deductions.ofEntries kvs := by
      simp only [Deductions.ofEntries]
      rw [lookupField_filter_ne kvs "pf" "esi" (by decide),
        lookupField_filter_ne kvs "tax_monthly" "esi" (by decide),
        lookupField_filter_ne kvs "professional_tax" "esi" (by decide),
        lookupField_filter_ne kvs "other_deductions" "esi" (by decide),
        lookupField_filter_self kvs "esi", hesi]
    rw [this]

/-- C11, amended, at the records of the specification: the total of `{}`
is 0, the total of `{pf: 1000, tax_monthly: 2000}` is 3000, in either
order of the keys. -/
theorem total_is_sum_of_present_witness :
    totalDeductions (some (.ofEntries [])) = .num (.fin 0) ∧
    totalDeductions (some (.ofEntries
      [("pf", .num (.fin 1000)), ("tax_monthly", .num (.fin 2000))])) = .num (.fin 3000) ∧
    totalDeductions (some (.ofEntries
      [("tax_monthly", .num (.fin 2000)), ("pf", .num (.fin 1000))])) =
      totalDeductions (some (.ofEntries
        [("pf", .num (.fin 1000)), ("tax_monthly", .num (.fin 2000))])) := by
  have h0 := (total_is_sum_of_present [] [] (by simp) (by simp) (List.Perm.refl _)
    (by decide!)).1
  have h1 := total_is_sum_of_present
    [("pf", .num (.fin 1000)), ("tax_monthly", .num (.fin 2000))]
    [("tax_monthly", .num (.fin 2000)), ("pf", .num (.fin 1000))]
    (by decide) (by simp [JsVal.isFiniteNumber]) (List.Perm.swap _ _ _) (by decide!)
  refine ⟨?_, ?_, h1.2.1⟩
  · simpa [presentSum] using h0
  · rw [h1.1]
    simp [presentSum, deductionKeys, finiteAmount]
    norm_num

/-! ## Currency formatting (claims C12 and C13) -/

/-- A decimal digit is not a comma. -/
theorem digitChar_ne_comma (d : Nat) (h : d < 10) : Nat.digitChar d ≠ ',' := by
  interval_cases d <;> decide

/-- The digit loop writes no comma. -/
theorem toDigitsCore_no_comma (fuel : Nat) :
    ∀ (n : Nat) (ds : List Char), (∀ c ∈ ds, c ≠ ',') →
      ∀ c ∈ Nat.toDigitsCore 10 fuel n ds, c ≠ ',' := by
  induction fuel with
  | zero => intro n ds h c hc; exact h c hc
  | succ fuel ih =>
    intro n ds h c hc
    have hd : ∀ x ∈ Nat.digitChar (n % 10) :: ds, x ≠ ',' := by
      intro x hx
      rcases List.mem_cons.mp hx with hx | hx
      · rw [hx]; exact digitChar_ne_comma _ (Nat.mod_lt _ (by decide))
      · exact h x hx
    simp only [Nat.toDigitsCore] at hc
    split at hc
    · exact hd c hc
    · exact ih _ _ hd c hc

/-- The decimal digits of a number hold no comma. -/
theorem toDigits_no_comma (n : Nat) : ∀ c ∈ Nat.toDigits 10 n, c ≠ ',' :=
  toDigitsCore_no_comma _ _ _ (by simp)

/-- The digit loop writes at least one digit. -/
theorem toDigitsCore_ne_nil (fuel : Nat) :
    ∀ (n : Nat) (ds : List Char), Nat.toDigitsCore 10 (fuel + 1) n ds ≠ [] := by
  induction fuel with
  | zero =>
    intro n ds
    simp only [Nat.toDigitsCore]
    split <;> simp
  | succ fuel ih =>
    intro n ds
    rw [Nat.toDigitsCore]
    split
    · simp
    · exact ih _ _

/-- A number has at least one decimal digit. -/
theorem toDigits_ne_nil (n : Nat) : Nat.toDigits 10 n ≠ [] :=
  toDigitsCore_ne_nil n n []

/-- Without its commas, the grouping in twos is the digits it was given. -/
theorem groupPairsRev_filter (l : List Char) (h : ∀ c ∈ l, c ≠ ',') :
    (groupPairsRev l).filter (fun c => c != ',') = l := by
  induction l using groupPairsRev.induct with
  | case1 => rfl
  | case2 a =>
    have ha : (a != ',') = true := by simpa using h a (by simp)
    simp [groupPairsRev, List.filter_cons, ha]
  | case3 a b rest ih =>
    have ha : (a != ',') = true := by simpa using h a (by simp)
    have hb : (b != ',') = true := by simpa using h b (by simp)
    have hr : ∀ c ∈ rest, c ≠ ',' := fun c hc => h c (by simp [hc])
    simp [groupPairsRev, List.filter_cons, ha, hb, ih hr]

/-- In the grouping in twos the commas sit at the positions divisible by
three. -/
theorem groupPairsRev_comma (l : List Char) (h : ∀ c ∈ l, c ≠ ',') :
    ∀ i, (groupPairsRev l)[i]? = some ',' ↔ (i % 3 = 0 ∧ i < (groupPairsRev l).length) := by
  induction l using groupPairsRev.induct with
  | case1 => intro i; simp [groupPairsRev]
  | case2 a =>
    have ha : a ≠ ',' := h a (by simp)
    intro i
    match i with
    | 0 => simp [groupPairsRev]
    | 1 => simp [groupPairsRev, ha]
    | k + 2 => simp [groupPairsRev]
  | case3 a b rest ih =>
    have ha : a ≠ ',' := h a (by simp)
    have hb : b ≠ ',' := h b (by simp)
    have hr : ∀ c ∈ rest, c ≠ ',' := fun c hc => h c (by simp [hc])
    intro i
    match i with
    | 0 => simp [groupPairsRev]
    | 1 => simp [groupPairsRev, ha]
    | 2 => simp [groupPairsRev, hb]
    | k + 3 =>
      have := ih hr k
      simp only [groupPairsRev, List.getElem?_cons_succ, List.length_cons]
      rw [this]
      omega

/-- The grouping in twos does not end with a comma. -/
theorem groupPairsRev_getLast (l : List Char) (h : ∀ c ∈ l, c ≠ ',') :
    (groupPairsRev l).getLast? ≠ some ',' := by
  induction l using groupPairsRev.induct with
  | case1 => simp [groupPairsRev]
  | case2 a =>
    have ha : a ≠ ',' := h a (by simp)
    simp [groupPairsRev, List.getLast?, ha]
  | case3 a b rest ih =>
    have hb : b ≠ ',' := h b (by simp)
    have hr : ∀ c ∈ rest, c ≠ ',' := fun c hc => h c (by simp [hc])
    have := ih hr
    cases hg : groupPairsRev rest with
    | nil => simp [groupPairsRev, hg, List.getLast?, hb]
    | cons x xs =>
      rw [hg] at this
      simpa [groupPairsRev, hg, List.getLast?_cons_cons] using this

/-- Indian grouping, read from the least significant digit: the digits are
kept, the commas sit at the positions 3, 6, 9, … and the most significant
character is not a comma. -/
theorem indianGroupingRev_spec (r : List Char) (h : ∀ c ∈ r, c ≠ ',') :
    (indianGroupingRev r).filter (fun c => c != ',') = r ∧
    (∀ i, (indianGroupingRev r)[i]? = some ',' ↔
      (3 ≤ i ∧ i % 3 = 0 ∧ i < (indianGroupingRev r).length)) ∧
    (indianGroupingRev r).getLast? ≠ some ',' := by
  have htake : ∀ c ∈ r.take 3, c ≠ ',' := fun c hc => h c (List.mem_of_mem_take hc)
  have hdrop : ∀ c ∈ r.drop 3, c ≠ ',' := fun c hc => h c (List.mem_of_mem_drop hc)
  refine ⟨?_, ?_, ?_⟩
  · unfold indianGroupingRev
    rw [List.filter_append, groupPairsRev_filter _ hdrop]
    have : (r.take 3).filter (fun c => c != ',') = r.take 3 := by
      rw [List.filter_eq_self]
      intro c hc
      simpa using htake c hc
    rw [this, List.take_append_drop]
  · intro i
    unfold indianGroupingRev
    by_cases hi : i < (r.take 3).length
    · rw [List.getElem?_append_left hi]
      have hlt : i < 3 := by
        have := List.length_take_le 3 r
        omega
      constructor
      · intro hc
        have hmem : ',' ∈ r.take 3 := List.getElem?_mem hc
        exact absurd rfl (htake _ hmem)
      · intro hc
        omega
    · have hi' : (r.take 3).length ≤ i := Nat.le_of_not_lt hi
      rw [List.getElem?_append_right hi', groupPairsRev_comma _ hdrop, List.length_append]
      by_cases hlen : r.length ≤ 3
      · have hd : r.drop 3 = [] := List.drop_eq_nil_of_le hlen
        have ht : (r.take 3).length = r.length := by
          rw [List.length_take]
          omega
        simp only [hd, groupPairsRev, List.length_nil]
        omega
      · have ht : (r.take 3).length = 3 := by
          rw [List.length_take]
          omega
        rw [ht] at hi' ⊢
        omega
  · unfold indianGroupingRev
    cases hg : groupPairsRev (r.drop 3) with
    | nil =>
      rw [List.append_nil]
      have hd : r.drop 3 = [] := by
        cases hr : r.drop 3 with
        | nil => rfl
        | cons a l =>
          rw [hr] at hg
          cases l <;> simp [groupPairsRev] at hg
      have ht : r.take 3 = r := by
        have := List.take_append_drop 3 r
        rw [hd, List.append_nil] at this
        exact this
      rw [ht]
      intro hl
      exact absurd rfl (h _ (List.mem_of_getLast?_eq_some hl))
    | cons x xs =>
      have := groupPairsRev_getLast _ hdrop
      rw [hg] at this
      rw [List.getLast?_append_of_ne_nil _ (by simp)]
      exact this

/-- A natural number is displayed as it is. -/
theorem roundedMagnitude_natCast (n : Nat) : roundedMagnitude (n : ℚ) = n := by
  unfold roundedMagnitude
  rw [Rat.num_natCast, Rat.den_natCast, Int.natAbs_ofNat]
  omega

/-- The formatter on a natural number. -/
theorem intlFormatINR_natCast (n : Nat) :
    intlFormatINR (.fin (n : ℚ)) = String.mk ('₹' :: indianGrouping n) := by
  have hn : ¬ ((n : ℚ) < 0) := not_lt.mpr (Nat.cast_nonneg n)
  simp only [intlFormatINR, hn, if_false, roundedMagnitude_natCast]
  rfl

/-- The formatter never writes `N/A`. -/
theorem intlFormatINR_ne_na (n : JsNum) : intlFormatINR n ≠ "N/A" := by
  intro h
  have hd := congrArg String.data h
  cases n with
  | fin q =>
    simp only [intlFormatINR] at hd
    by_cases hq : q < 0
    · simp only [hq, if_true, String.data_append] at hd
      cases hd
    · simp only [hq, if_false, String.data_append] at hd
      cases hd
  | nan => exact absurd h (by decide)
  | posInf => exact absurd h (by decide)
  | negInf => exact absurd h (by decide)

/-- The formatter is applied to every number. -/
theorem formatCurrency_num (strToNum : List StrPart → JsNum) (n : JsNum) :
    formatCurrency strToNum (.num n) = intlFormatINR n := by
  simp [formatCurrency, JsVal.toNumberWith]

/-- C12: `formatCurrency` returns `'N/A'` if and only if its argument is
null or undefined; every number, 0 included, goes to the formatter and is
not rendered as `'N/A'`, and `formatCurrency(0)` is `'₹0'`. -/
theorem formatCurrency_na_iff (strToNum : List StrPart → JsNum) (amount : JsVal) :
    (formatCurrency strToNum amount = "N/A" ↔ (amount = .null ∨ amount = .undefined)) ∧
    (∀ n : JsNum, formatCurrency strToNum (.num n) = intlFormatINR n ∧
      formatCurrency strToNum (.num n) ≠ "N/A") ∧
    formatCurrency strToNum (.num (.fin 0)) = "₹0" := by
  refine ⟨?_, ?_, ?_⟩
  · constructor
    · intro h
      by_contra hne
      unfold formatCurrency at h
      rw [if_neg hne] at h
      exact intlFormatINR_ne_na _ h
    · intro h
      unfold formatCurrency
      rw [if_pos h]
  · intro n
    rw [formatCurrency_num]
    exact ⟨rfl, intlFormatINR_ne_na n⟩
  · rw [formatCurrency_num]
    decide

/-- C13: for a natural number `n`, `formatCurrency(n)` is the rupee sign
followed by the decimal digits of `n` and commas only, so without fraction
digits; counted from the last character, the commas sit exactly at the
positions 3, 6, 9, …, so the last three digits form one group and the
digits before them groups of two, and the first character after the rupee
sign is a digit.  In particular `formatCurrency(65000)` is `'₹65,000'` and
`formatCurrency(1234567)` is `'₹12,34,567'`. -/
theorem formatCurrency_indian_grouping (strToNum : List StrPart → JsNum) (n : Nat) :
    (∃ body : List Char,
      formatCurrency strToNum (.num (.fin (n : ℚ))) = String.mk ('₹' :: body) ∧
      body.filter (fun c => c != ',') = Nat.toDigits 10 n ∧
      (∀ i, body.reverse[i]? = some ',' ↔ (3 ≤ i ∧ i % 3 = 0 ∧ i < body.length)) ∧
      body ≠ [] ∧ body.head? ≠ some ',') ∧
    formatCurrency strToNum (.num (.fin 65000)) = "₹65,000" ∧
    formatCurrency strToNum (.num (.fin 1234567)) = "₹12,34,567" := by
  refine ⟨⟨indianGrouping n, ?_, ?_, ?_, ?_, ?_⟩, ?_, ?_⟩
  · rw [formatCurrency_num, intlFormatINR_natCast]
  · have h := (indianGroupingRev_spec (Nat.toDigits 10 n).reverse
      (fun c hc => toDigits_no_comma n c (List.mem_reverse.mp hc))).1
    unfold indianGrouping
    rw [List.filter_reverse, h, List.reverse_reverse]
  · have h := (indianGroupingRev_spec (Nat.toDigits 10 n).reverse
      (fun c hc => toDigits_no_comma n c (List.mem_reverse.mp hc))).2.1
    intro i
    unfold indianGrouping
    rw [List.reverse_reverse, List.length_reverse]
    exact h i
  · intro hnil
    have h := (indianGroupingRev_spec (Nat.toDigits 10 n).reverse
      (fun c hc => toDigits_no_comma n c (List.mem_reverse.mp hc))).1
    unfold indianGrouping at hnil
    rw [List.reverse_eq_nil_iff] at hnil
    rw [hnil] at h
    exact toDigits_ne_nil n (List.reverse_eq_nil_iff.mp h.symm)
  · have h := (indianGroupingRev_spec (Nat.toDigits 10 n).reverse
      (fun c hc => toDigits_no_comma n c (List.mem_reverse.mp hc))).2.2
    unfold indianGrouping
    rw [List.head?_reverse]
    exact h
  · have h := intlFormatINR_natCast 65000
    rw [Nat.cast_ofNat] at h
    rw [formatCurrency_num, h]
    decide
  · have h := intlFormatINR_natCast 1234567
    rw [Nat.cast_ofNat] at h
    rw [formatCurrency_num, h]
    decide

/-! ## Monthly equivalents of the research figures (claim C14) -/

/-- The conversion of a finite figure: the product with 100000 rounded to
a double, then divided by 12. -/
theorem monthlyEquivalent_fin (strToNum : List StrPart → JsNum) (q : ℚ) :
    monthlyEquivalent strToNum (.num (.fin q)) =
      .num ((roundDouble (q * 100000)).div (.fin 12)) := by
  by_cases hq : q = 0
  · subst hq
    simp [monthlyEquivalent, jsOr, JsVal.truthy, JsNum.truthy, JsVal.zero, jsMul, jsDiv,
      JsVal.toNumberWith, JsNum.mul]
  · simp [monthlyEquivalent, jsOr, JsVal.truthy, JsNum.truthy, hq, jsMul, jsDiv,
      JsVal.toNumberWith, JsNum.mul]

/-- The conversion of a finite figure whose product and quotient are
doubles is exact. -/
theorem monthlyEquivalent_fin_exact (strToNum : List StrPart → JsNum) (q : ℚ)
    (h1 : isDouble (q * 100000) = true) (h2 : isDouble (q * 100000 / 12) = true) :
    monthlyEquivalent strToNum (.num (.fin q)) = .num (.fin (q * 100000 / 12)) := by
  have h12 : ¬ ((12 : ℚ) = 0) := by norm_num
  rw [monthlyEquivalent_fin, roundDouble_of_isDouble _ h1]
  simp only [JsNum.div, h12, if_false]
  rw [roundDouble_of_isDouble _ h2]

/-- An absent figure is converted as the number 0. -/
theorem monthlyEquivalent_undefined (strToNum : List StrPart → JsNum) :
    monthlyEquivalent strToNum .undefined = .num (.fin 0) := by
  have h0 : monthlyEquivalent strToNum .undefined =
      monthlyEquivalent strToNum (.num (.fin 0)) := by
    simp [monthlyEquivalent, jsOr, JsVal.truthy, JsNum.truthy, JsVal.zero]
  rw [h0, monthlyEquivalent_fin_exact strToNum 0 (by decide!) (by decide!)]
  norm_num

/-- C14, as stated, fails: for a figure of 10 LPA the argument handed to
`formatCurrency` is the double 83333.33333333333, that is
5726623061333333 / 2 ^ 36, and not the rational 10 * 100000 / 12. -/
theorem monthly_equivalent_exact_counterexample :
    researchAmounts strToNumNaN ⟨.undefined, .num (.fin 10), .undefined, .undefined⟩ =
      [.num (.fin (5726623061333333 / 68719476736)), .num (.fin 0), .num (.fin 0)] ∧
    (5726623061333333 / 68719476736 : ℚ) ≠ 10 * 100000 / 12 := by
  decide!

/-- C14, amended: for every research findings block, the arguments handed
to `formatCurrency` for `estimated_base_salary`,
`estimated_stock_component` and `estimated_bonus` are the conversions of
these three figures; each is a number, never null or undefined, so
`formatCurrency` hands it on to the formatter.  The conversion of a figure
that is the finite number `q` is `q * 100000 / 12` in double arithmetic,
the product rounded to a double and then the quotient; it is exactly
`q * 100000 / 12` when the product and the quotient are doubles; and an
absent figure is converted to 0. -/
theorem monthly_equivalent_exact (strToNum : List StrPart → JsNum) (rf : ResearchFindings) :
    researchAmounts strToNum rf = (researchFigures rf).map (monthlyEquivalent strToNum) ∧
    (∀ x ∈ researchAmounts strToNum rf,
      (∃ n : JsNum, x = .num n ∧ formatCurrency strToNum x = intlFormatINR n) ∧
      x ≠ .null ∧ x ≠ .undefined) ∧
    (∀ q : ℚ, monthlyEquivalent strToNum (.num (.fin q)) =
      .num ((roundDouble (q * 100000)).div (.fin 12))) ∧
    (∀ q : ℚ, isDouble (q * 100000) = true → isDouble (q * 100000 / 12) = true →
      monthlyEquivalent strToNum (.num (.fin q)) = .num (.fin (q * 100000 / 12))) ∧
    monthlyEquivalent strToNum .undefined = .num (.fin 0) := by
  refine ⟨rfl, ?_, monthlyEquivalent_fin strToNum, monthlyEquivalent_fin_exact strToNum,
    monthlyEquivalent_undefined strToNum⟩
  intro x hx
  have hnum : ∃ n : JsNum, x = .num n := by
    simp only [researchAmounts, List.mem_cons, List.mem_singleton, List.not_mem_nil,
      or_false] at hx
    rcases hx with hx | hx | hx <;> exact ⟨_, hx⟩
  obtain ⟨n, hn⟩ := hnum
  subst hn
  exact ⟨⟨n, rfl, formatCurrency_num strToNum n⟩, by simp, by simp⟩

/-- C14, amended, at a block with a base salary of 15 LPA and no stock
component: the base salary is converted to 125000 and the stock component
to 0. -/
theorem monthly_equivalent_exact_witness :
    monthlyEquivalent strToNumNaN (.num (.fin 15)) = .num (.fin 125000) ∧
    monthlyEquivalent strToNumNaN .undefined = .num (.fin 0) := by
  have h := monthly_equivalent_exact strToNumNaN
    ⟨.undefined, .num (.fin 15), .undefined, .num (.fin 2)⟩
  have h1 := h.2.2.2.1 15 (by decide!) (by decide!)
  refine ⟨?_, h.2.2.2.2⟩
  rw [h1]
  norm_num

end CtcClient
